import Mathlib

set_option autoImplicit false
set_option maxRecDepth 8192

/-!
Verification of the `connect-chatbridge` Koishi plugin (`src/src/index.ts`).

The development shallowly embeds the plugin's relay logic: strings are
`List Char` (JS strings compared byte-for-byte), the JS regexes used by the
plugin are compiled by hand into executable matchers, and the plugin-scope
mutable variables (`频道列表`, `max`, `max_`, `hasExecuted`, `messageQueue`)
become an explicit state record threaded through the handlers.
-/

namespace ConnectChatbridge

/-- JS `a.includes(b)`: `b` occurs as a contiguous substring of `a`. -/
def includesStr (a b : List Char) : Bool :=
  match a with
  | [] => b.isEmpty
  | _ :: a2 => b.isPrefixOf a || includesStr a2 b

/-! ## Scheduler (`scheduleTasks`, src/src/index.ts lines 326-358)

Times are modelled as milliseconds since local midnight of the current day;
`Date.prototype.setHours(h, m, 0, 0)` on "today" yields `h*3600000 + m*60000`,
and `setDate(getDate() + 1)` adds one (uniform) day, 86400000 ms. -/

/-- One day in milliseconds. -/
def dayMs : Int := 86400000

/-- Configuration of `定时启动转发频道消息` / `定时关闭转发频道消息`: the two
`(hour, minute)` tuples.  `startH/startM` is the daily start boundary,
`stopH/stopM` the daily stop boundary. -/
structure ScheduleCfg where
  startH : Nat
  startM : Nat
  stopH : Nat
  stopM : Nat
  deriving DecidableEq

/-- `startTime` of `scheduleTasks`: today's start instant, ms since midnight. -/
def ScheduleCfg.startTime (cfg : ScheduleCfg) : Int :=
  (cfg.startH * 3600000 + cfg.startM * 60000 : Nat)

/-- `stopTime` of `scheduleTasks`: today's stop instant, ms since midnight. -/
def ScheduleCfg.stopTime (cfg : ScheduleCfg) : Int :=
  (cfg.stopH * 3600000 + cfg.stopM * 60000 : Nat)

/-- The single timer armed by one `scheduleTasks` invocation: either a timer
until the next start boundary or until the next stop boundary, with its delay
in milliseconds. -/
inductive SchedAction where
  | armStart (delayMs : Int)
  | armStop (delayMs : Int)
  deriving DecidableEq

/-- `scheduleTasks`: with `now` the current time (ms since today's midnight),
if `now >= stopTime && now <= startTime` arm the restart timer for
`startTime - now`, otherwise arm the stop timer for
`stopTime.setDate(getDate()+1) - now`, i.e. one day is added to the stop
instant. -/
def scheduleTasks (cfg : ScheduleCfg) (now : Int) : SchedAction :=
  if cfg.stopTime ≤ now ∧ now ≤ cfg.startTime then
    .armStart (cfg.startTime - now)
  else
    .armStop (cfg.stopTime + dayMs - now)

/-! ## C6: midnight-spanning blackout window -/

/-- C6: for every schedule whose stop instant is numerically before the start
instant and every `now` of the current day outside the blackout window
`[stopTime, startTime]`, `scheduleTasks` arms the stop timer with delay
`stopTime + one day - now`, and that delay is non-negative. -/
theorem c6_sched_stop_next_day (cfg : ScheduleCfg) (now : Int)
    (hlt : cfg.stopTime < cfg.startTime)
    (hday : 0 ≤ now ∧ now < dayMs)
    (hout : ¬(cfg.stopTime ≤ now ∧ now ≤ cfg.startTime)) :
    scheduleTasks cfg now = .armStop (cfg.stopTime + dayMs - now) ∧
      0 ≤ cfg.stopTime + dayMs - now := by
  constructor
  · simp [scheduleTasks, hout]
  · have h0 : (0:Int) ≤ cfg.stopTime := Int.natCast_nonneg _
    omega

/-- C6 witness: `start = 06:00`, `stop = 00:00`, `now = 23:00` (82800000 ms):
the scheduler arms the stop timer for exactly one hour (3600000 ms), not a
negative delay. -/
theorem c6_sched_stop_next_day_witness :
    (⟨6, 0, 0, 0⟩ : ScheduleCfg).stopTime < (⟨6, 0, 0, 0⟩ : ScheduleCfg).startTime ∧
    scheduleTasks ⟨6, 0, 0, 0⟩ 82800000 = .armStop 3600000 := by
  refine ⟨by norm_num [ScheduleCfg.stopTime, ScheduleCfg.startTime], ?_⟩
  have h := c6_sched_stop_next_day ⟨6, 0, 0, 0⟩ 82800000
    (by norm_num [ScheduleCfg.stopTime, ScheduleCfg.startTime])
    (by norm_num [dayMs])
    (by norm_num [ScheduleCfg.stopTime, ScheduleCfg.startTime])
  rw [h.1]
  norm_num [ScheduleCfg.stopTime, dayMs]

/-! ## Relay Gateway handshake (`startServer` connection handler,
src/src/index.ts lines 272-304)

On each WebSocket connection the handler reads the `access_token` query
parameter (`null` when absent) and compares it with `config.token` using
`===`.  On a match it installs the `message` and `close` listeners; on a
mismatch it calls `socket.close()` (the graceful close, distinct from the
`terminate()` used by `closeServer`) and returns without installing any
listener. -/

/-- What one run of the `connection` handler did to the fresh socket. -/
structure ConnOutcome where
  messageHandlerInstalled : Bool
  closeHandlerInstalled : Bool
  calledClose : Bool
  calledTerminate : Bool
  deriving DecidableEq

/-- `config.token === accessToken` where `accessToken` is
`searchParams.get(\x27access_token\x27)` (`none` models JS `null`; a string
never `===`-equals `null`). -/
def tokenMatches (cfgToken : List Char) (accessToken : Option (List Char)) : Bool :=
  match accessToken with
  | some t => cfgToken == t
  | none => false

/-- The `connection` handler of `startServer`. -/
def connectionHandler (cfgToken : List Char) (accessToken : Option (List Char)) :
    ConnOutcome :=
  if tokenMatches cfgToken accessToken then
    { messageHandlerInstalled := true, closeHandlerInstalled := true,
      calledClose := false, calledTerminate := false }
  else
    { messageHandlerInstalled := false, closeHandlerInstalled := false,
      calledClose := true, calledTerminate := false }

/-! ## Delivery queue flush (`trySend`, src/src/index.ts lines 502-516)

`trySend` snapshots `messageQueue.length`, broadcasts `messageQueue[i]` for
`i` below that snapshot, and finally reassigns `messageQueue = []`.  The
model takes the queue contents `q0` at the moment the loop starts together
with the messages `appendedDuring` pushed during the loop's `await`
suspension points (appends only ever go to the end of the live array, so the
reads below the snapshot index are unaffected), and returns the list of
broadcast messages paired with the final queue. -/

/-- `trySend` (success path of the loop): broadcasts the snapshot, then
clears the whole live queue. -/
def trySend (q0 appendedDuring : List (List Char)) :
    List (List Char) × List (List Char) :=
  let len := q0.length
  let live := q0 ++ appendedDuring
  ((List.range len).map (fun i => live.getD i []), [])

/-- Reading the live queue below the snapshot index yields exactly the
snapshot, in order. -/
theorem range_map_getD (q ap : List (List Char)) :
    (List.range q.length).map (fun i => (q ++ ap).getD i []) = q := by
  induction q with
  | nil => simp
  | cons a q ih =>
    rw [List.length_cons, List.range_succ_eq_map, List.map_cons, List.map_map]
    refine congrArg₂ List.cons (by simp) ?_
    have hfun : ((fun i => ((a :: q ++ ap).getD i [])) ∘ Nat.succ)
        = fun i => (q ++ ap).getD i [] := by
      funext i
      simp [List.getD_cons_succ]
    rw [hfun, ih]

/-! ## Failover state machine (`handleError`, src/src/index.ts lines 431-498)

The plugin-scope mutable variables become one state record.  `频道列表` is
the platform→channel map (JS object: assignment updates an existing key in
place or appends a new one; `delete` removes it), and `changeChannel` /
`deleteChannel` recompute the derived `channels` broadcast target list. -/

/-- Plugin-scope mutable state: `频道列表`, `max`, `max_`, `hasExecuted`,
`messageQueue`. -/
structure PluginState where
  channelList : List (List Char × List Char)
  max : Bool
  max_ : Bool
  hasExecuted : Bool
  messageQueue : List (List Char)
  deriving DecidableEq

/-- JS object property assignment `obj[k] = v`: update the existing entry in
place, or append a new one. -/
def setChannel : List (List Char × List Char) → List Char → List Char →
    List (List Char × List Char)
  | [], k, v => [(k, v)]
  | (k0, v0) :: rest, k, v =>
    if k0 = k then (k, v) :: rest else (k0, v0) :: setChannel rest k v

/-- JS `delete obj[k]`. -/
def removeChannel (l : List (List Char × List Char)) (k : List Char) :
    List (List Char × List Char) :=
  l.filter (fun p => p.1 ≠ k)

/-- Property read `obj[k]`. -/
def lookupChannel : List (List Char × List Char) → List Char →
    Option (List Char)
  | [], _ => none
  | (k0, v0) :: rest, k => if k0 = k then some v0 else lookupChannel rest k

/-- The `qqguild` key used by `changeChannel`/`deleteChannel` calls in
`handleError`. -/
def qqguildKey : List Char := "qqguild".data

/-- Configuration consulted by `handleError`: `使用备用频道`,
`备用转发频道`, `启用定时任务`. -/
structure FailoverCfg where
  useFallback : Bool
  fallbackChannel : List Char
  enableScheduled : Bool
  deriving DecidableEq

/-- The three `handleError` branches, keyed by `error.message` substring
tests. -/
inductive ErrKind where
  | botOffline
  | rateLimit
  | generic
  deriving DecidableEq

/-- `handleError`'s branch selection:
`error.message.includes("(reading \x27broadcast\x27)")`, then
`error.message.includes("限制")`, else the generic log branch. -/
def classifyError (msg : List Char) : ErrKind :=
  if includesStr msg ("(reading \x27broadcast\x27)").data then .botOffline
  else if includesStr msg ("限制").data then .rateLimit
  else .generic

/-- Result of one `handleError` run: the new state, whether `trySend()` was
invoked (queue retry), the queue contents handed to that retry, and whether
the `resetMax` midnight timer was armed. -/
structure ErrorOutcome where
  st : PluginState
  calledTrySend : Bool
  retriedQueue : List (List Char)
  armedResetTimer : Bool
  deriving DecidableEq

/-- `handleError` of src/src/index.ts.  In the rate-limit branch with
`使用备用频道` set, it always rewrites `qqguild` to the fallback channel,
then on the first hit (`!max`) sets `max := true` and calls `trySend()`; on
a later hit deletes the `qqguild` entry (the `max_ = true` assignment is
commented out in the source).  Without a fallback it only deletes the
`qqguild` entry (both flag assignments are commented out).  Either way,
when `启用定时任务` is false a `resetMax` timer to next midnight is armed
(which only restores the primary channel; its flag resets are commented
out too).  The `botOffline` branch only logs, as does the generic branch. -/
def handleError (cfg : FailoverCfg) (st : PluginState) (k : ErrKind) :
    ErrorOutcome :=
  match k with
  | .botOffline => ⟨st, false, [], false⟩
  | .rateLimit =>
    if cfg.useFallback then
      let st1 := { st with
        channelList := setChannel st.channelList qqguildKey cfg.fallbackChannel }
      if !st.max then
        ⟨{ st1 with max := true }, true, st.messageQueue, !cfg.enableScheduled⟩
      else
        ⟨{ st1 with channelList := removeChannel st1.channelList qqguildKey },
          false, [], !cfg.enableScheduled⟩
    else
      ⟨{ st with channelList := removeChannel st.channelList qqguildKey },
        false, [], !cfg.enableScheduled⟩
  | .generic => ⟨st, false, [], false⟩

/-- Updating a key then reading it back yields the written value. -/
theorem lookupChannel_setChannel (l : List (List Char × List Char))
    (k v : List Char) : lookupChannel (setChannel l k v) k = some v := by
  induction l with
  | nil => simp [setChannel, lookupChannel]
  | cons p rest ih =>
    by_cases h : p.1 = k
    · simp [setChannel, h, lookupChannel]
    · simp [setChannel, h, lookupChannel, ih]

/-- Deleting a key then reading it back yields nothing. -/
theorem lookupChannel_removeChannel (l : List (List Char × List Char))
    (k : List Char) : lookupChannel (removeChannel l k) k = none := by
  induction l with
  | nil => simp [removeChannel, lookupChannel]
  | cons p rest ih =>
    by_cases h : p.1 = k
    · simpa [removeChannel, h] using ih
    · simpa [removeChannel, h, lookupChannel] using ih

/-- The historical compiled variant (src/lib/index.js lines 273-307): its
rate-limit branch with a fallback configured sets `max := true` and retries
on the first hit and sets `max_ := true` on the second; without a fallback
it sets both flags at once.  State: `收发消息的频道`, `max`, `max_`,
`errorCount`. -/
structure LibState where
  channel : List Char
  max : Bool
  max_ : Bool
  errorCount : Nat
  deriving DecidableEq

/-- `handleError` of src/lib/index.js; the returned `Bool` records whether
`trySend()` was invoked. -/
def handleErrorLib (useFallback : Bool) (fb : List Char) (st : LibState)
    (k : ErrKind) : LibState × Bool :=
  match k with
  | .botOffline =>
    let st1 := if st.errorCount > 6 then { st with max := true, max_ := true }
      else st
    ({ st1 with errorCount := st1.errorCount + 1 }, true)
  | .rateLimit =>
    if useFallback then
      let st1 := { st with channel := fb }
      if !st.max then ({ st1 with max := true }, true)
      else ({ st1 with max_ := true }, false)
    else ({ st with max := true, max_ := true }, false)
  | .generic => (st, false)

/-- In the historical variant the spec's failover story does hold: two
consecutive rate-limit errors with a fallback leave `max_ = true`, and one
rate-limit error without a fallback sets both flags. -/
theorem handleErrorLib_rate_limit_flags (fb : List Char) (st : LibState)
    (h1 : st.max = false) :
    ((handleErrorLib true fb ((handleErrorLib true fb st .rateLimit).1)
        .rateLimit).1).max_ = true ∧
    (handleErrorLib false fb st .rateLimit).1.max = true ∧
    (handleErrorLib false fb st .rateLimit).1.max_ = true := by
  simp [handleErrorLib, h1]

/-- Instantiation of the historical-variant failover lemma. -/
theorem handleErrorLib_rate_limit_flags_check :
    (⟨"c".data, false, false, 0⟩ : LibState).max = false ∧
    ((handleErrorLib true ("f".data)
        ((handleErrorLib true ("f".data) ⟨"c".data, false, false, 0⟩
          .rateLimit).1) .rateLimit).1).max_ = true :=
  ⟨by decide, (handleErrorLib_rate_limit_flags ("f".data)
    ⟨"c".data, false, false, 0⟩ (by decide)).1⟩

/-! ## C7: handshake auth gate -/

/-- C7 counterexample: on a token mismatch the handler does not call
`socket.terminate()` — it calls the graceful `socket.close()` — so the claim
that the gateway "terminates the socket immediately" is false at the
concrete handshake `token = "secret"`, `access_token = "wrong"`. -/
theorem c7_auth_counterexample :
    (connectionHandler ("secret").data (some ("wrong").data)).calledTerminate
        = false ∧
    (connectionHandler ("secret").data (some ("wrong").data)).calledClose
        = true := by
  decide

/-- C7 (amended): for every handshake whose `access_token` query parameter is
not byte-for-byte equal to the configured secret (including an absent
parameter), the gateway refuses the connection by calling the graceful
`socket.close()` (not `terminate()`) and installs no message or close
listener, so no subsequent frame from that peer is processed; nothing
retries the handshake. -/
theorem c7_auth_reject_amended (cfgToken : List Char)
    (accessToken : Option (List Char))
    (hneq : ∀ t, accessToken = some t → cfgToken ≠ t) :
    connectionHandler cfgToken accessToken =
      { messageHandlerInstalled := false, closeHandlerInstalled := false,
        calledClose := true, calledTerminate := false } := by
  have hm : tokenMatches cfgToken accessToken = false := by
    cases accessToken with
    | none => rfl
    | some t =>
      have := hneq t rfl
      simpa [tokenMatches] using this
  simp [connectionHandler, hm]

/-- C7 witness: the amended rejection theorem at the concrete handshake
`token = "secret"`, `access_token = "wrong"`. -/
theorem c7_auth_reject_witness :
    (∀ t, (some ("wrong").data) = some t → ("secret").data ≠ t) ∧
    connectionHandler ("secret").data (some ("wrong").data) =
      { messageHandlerInstalled := false, closeHandlerInstalled := false,
        calledClose := true, calledTerminate := false } :=
  ⟨by intro t ht; cases ht; decide,
    c7_auth_reject_amended ("secret").data (some ("wrong").data)
      (by intro t ht; cases ht; decide)⟩

/-! ## C3: flush snapshot semantics -/

/-- C3 counterexample: a message enqueued after the flush started does not
"remain to be delivered by a subsequent flush cycle": the final
`messageQueue = []` reassignment discards it entirely (it is neither
broadcast by this flush nor left in the queue). -/
theorem c3_flush_counterexample :
    (trySend [("a").data] [("b").data]).1 = [("a").data] ∧
    (trySend [("a").data] [("b").data]).2 = [] ∧
    ¬ ("b").data ∈ (trySend [("a").data] [("b").data]).2 := by
  decide

/-- C3 (amended): a flush broadcasts exactly the messages in the queue at
flush start, one broadcast per message, in FIFO insertion order; a message
enqueued after the flush started is not part of that flush's drained count,
but the flush's final queue reassignment clears the whole live queue, so
such messages are discarded rather than delivered by a later flush cycle. -/
theorem c3_flush_snapshot_amended (q0 appendedDuring : List (List Char)) :
    (trySend q0 appendedDuring).1 = q0 ∧
    (trySend q0 appendedDuring).2 = [] := by
  refine ⟨?_, rfl⟩
  simpa [trySend] using range_map_getD q0 appendedDuring

/-! ## C1: rate-limit failover -/

/-- C1 counterexample: with no fallback channel configured, a single
rate-limit-classified error leaves `max` and `max_` both `false` (their
assignments are commented out in src/src/index.ts); the claim that it "sets
both flags and suspends delivery" is false at this concrete state. -/
theorem c1_failover_counterexample :
    (handleError ⟨false, [], false⟩
        ⟨[(("qqguild").data, ("123").data)], false, false, false, []⟩
        .rateLimit).st.max = false ∧
    (handleError ⟨false, [], false⟩
        ⟨[(("qqguild").data, ("123").data)], false, false, false, []⟩
        .rateLimit).st.max_ = false := by
  decide

/-- C1 (amended): with a fallback channel configured, the first
rate-limit-classified error rewrites the `qqguild` entry to the fallback
channel, sets `max := true` and immediately retries the pending queue via
`trySend()`; a second consecutive rate-limit error instead deletes the
`qqguild` entry from the broadcast targets and leaves `max_` unchanged
(false), so the `max && max_` suspension guard is never reached through
rate limiting; with no fallback configured, a single rate-limit error only
deletes the `qqguild` entry and changes neither flag.  In each rate-limit
case, a `resetMax` midnight timer is armed exactly when `启用定时任务` is
off. -/
theorem c1_failover_amended :
    (∀ (cfg : FailoverCfg) (st : PluginState),
      cfg.useFallback = true → st.max = false → st.max_ = false →
      (handleError cfg st .rateLimit).st.max = true ∧
      (handleError cfg st .rateLimit).calledTrySend = true ∧
      (handleError cfg st .rateLimit).retriedQueue = st.messageQueue ∧
      lookupChannel (handleError cfg st .rateLimit).st.channelList qqguildKey
          = some cfg.fallbackChannel ∧
      (handleError cfg (handleError cfg st .rateLimit).st .rateLimit).st.max_
          = false ∧
      (handleError cfg (handleError cfg st .rateLimit).st
          .rateLimit).calledTrySend = false ∧
      lookupChannel (handleError cfg (handleError cfg st .rateLimit).st
          .rateLimit).st.channelList qqguildKey = none ∧
      ((handleError cfg (handleError cfg st .rateLimit).st .rateLimit).st.max
          && (handleError cfg (handleError cfg st .rateLimit).st
            .rateLimit).st.max_) = false) ∧
    (∀ (cfg : FailoverCfg) (st : PluginState),
      cfg.useFallback = false →
      (handleError cfg st .rateLimit).st.max = st.max ∧
      (handleError cfg st .rateLimit).st.max_ = st.max_ ∧
      (handleError cfg st .rateLimit).calledTrySend = false ∧
      lookupChannel (handleError cfg st .rateLimit).st.channelList qqguildKey
          = none) ∧
    (∀ (cfg : FailoverCfg) (st : PluginState),
      (handleError cfg st .rateLimit).armedResetTimer = !cfg.enableScheduled) := by
  refine ⟨?_, ?_, ?_⟩
  · intro cfg st hfb hmax hmax2
    simp only [handleError, hfb, hmax, if_true, Bool.not_false, if_pos,
      lookupChannel_setChannel, lookupChannel_removeChannel]
    simp [hmax2, lookupChannel_setChannel, lookupChannel_removeChannel]
  · intro cfg st hfb
    simp [handleError, hfb, lookupChannel_removeChannel]
  · intro cfg st
    by_cases hfb : cfg.useFallback <;> by_cases hm : st.max <;>
      simp [handleError, hfb, hm]

/-- C1 witness: the amended failover theorem at a concrete configuration
(fallback `"fb"`, scheduler off) and a concrete initial state with one
queued message. -/
theorem c1_failover_witness :
    (⟨true, ("fb").data, false⟩ : FailoverCfg).useFallback = true ∧
    (handleError ⟨true, ("fb").data, false⟩
        ⟨[(("qqguild").data, ("123").data)], false, false, false,
          [("m1").data]⟩ .rateLimit).st.max = true ∧
    (handleError ⟨true, ("fb").data, false⟩
        ⟨[(("qqguild").data, ("123").data)], false, false, false,
          [("m1").data]⟩ .rateLimit).retriedQueue = [("m1").data] ∧
    (handleError ⟨true, ("fb").data, false⟩
        (handleError ⟨true, ("fb").data, false⟩
          ⟨[(("qqguild").data, ("123").data)], false, false, false,
            [("m1").data]⟩ .rateLimit).st .rateLimit).st.max_ = false := by
  have h := (c1_failover_amended.1 ⟨true, ("fb").data, false⟩
    ⟨[(("qqguild").data, ("123").data)], false, false, false, [("m1").data]⟩
    rfl rfl rfl)
  exact ⟨rfl, h.1, h.2.2.1, h.2.2.2.2.1⟩

/-! ## JS character classes and the `linkPattern` regex

`processElement` (src/src/index.ts lines 210-238) matches text content
against
`/\b(?:https?):\/\/\S+\b|\bwww\.\S+\b|\[link\]\((https?|www)\:\/\/\S+\)|\S+\.(html|jpg|png|gif|mp3|mp4)\b/g`.
The four alternatives are compiled by hand below, preserving the regex's
ordered alternation, greedy `\S+` with backtracking, word boundaries, and
left-to-right global scanning with restarts after each match. -/

/-- JS regex `\s` (whitespace) on a code point. -/
def isSpaceJs (c : Char) : Bool :=
  c == ' ' || c == '\t' || c == '\n' || c == '\r' || c == '\x0b' ||
  c == '\x0c' || c == ' ' || c == ' ' ||
  (0x2000 ≤ c.toNat && c.toNat ≤ 0x200a) ||
  c == ' ' || c == ' ' || c == ' ' || c == ' ' ||
  c == '　' || c == '﻿'

/-- JS regex `\w` (word character): `[A-Za-z0-9_]`. -/
def isWordJs (c : Char) : Bool := c.isAlpha || c.isDigit || c == '_'

/-- Word-ness of an optional character; out-of-string counts as non-word. -/
def optWord : Option Char → Bool
  | some c => isWordJs c
  | none => false

/-- JS regex `\b` between two (optional) adjacent characters. -/
def bdryAt (a b : Option Char) : Bool := optWord a != optWord b

/-- The maximal `\S*` run at the head of the input, with the remainder. -/
def takeNonSpace : List Char → List Char × List Char
  | [] => ([], [])
  | c :: rest =>
    if isSpaceJs c then ([], c :: rest)
    else
      let (run, r) := takeNonSpace rest
      (c :: run, r)

/-- Literal pattern matching: the remainder when `pat` is a prefix of `s`. -/
def litP : List Char → List Char → Option (List Char)
  | [], s => some s
  | _ :: _, [] => none
  | p :: ps, c :: s => if c = p then litP ps s else none

/-- Greedy `\S+` (within `run`) followed by `\b`, with backtracking: the
longest non-empty prefix of `run` whose last character forms a word
boundary with the following character (within `run`, or else the head of
`rest`, or else end of input); paired with everything after it. -/
def longestBdry : List Char → List Char → Option (List Char × List Char)
  | [], _ => none
  | c :: cs, rest =>
    match longestBdry cs rest with
    | some (p, r) => some (c :: p, r)
    | none =>
      if bdryAt (some c) ((cs ++ rest).head?) then some ([c], cs ++ rest)
      else none

/-- Shared tail of alternatives 1 and 2: `\S+\b` after the already-consumed
literal `consumed`. -/
def tailNonSpaceBdry (consumed r1 : List Char) :
    Option (List Char × List Char) :=
  let (run, rest) := takeNonSpace r1
  match longestBdry run rest with
  | some (p, r) => some (consumed ++ p, r)
  | none => none

/-- Alternative 1, `\b(?:https?):\/\/\S+\b`, tried at the current position
(`prev` is the character just before it). -/
def tryHttp (prev : Option Char) (s : List Char) :
    Option (List Char × List Char) :=
  if bdryAt prev s.head? then
    match litP ("https://").data s with
    | some r1 => tailNonSpaceBdry ("https://").data r1
    | none =>
      match litP ("http://").data s with
      | some r1 => tailNonSpaceBdry ("http://").data r1
      | none => none
  else none

/-- Alternative 2, `\bwww\.\S+\b`. -/
def tryWww (prev : Option Char) (s : List Char) :
    Option (List Char × List Char) :=
  if bdryAt prev s.head? then
    match litP ("www.").data s with
    | some r1 => tailNonSpaceBdry ("www.").data r1
    | none => none
  else none

/-- The `(https?|www)\:\/\/` part of alternative 3 (ordered alternation with
greedy optional `s`): consumed characters and remainder. -/
def scheme3 (r1 : List Char) : Option (List Char × List Char) :=
  match litP ("https://").data r1 with
  | some r2 => some (("https://").data, r2)
  | none =>
    match litP ("http://").data r1 with
    | some r2 => some (("http://").data, r2)
    | none =>
      match litP ("www://").data r1 with
      | some r2 => some (("www://").data, r2)
      | none => none

/-- Split a list at its last `)` character, if any. -/
def lastSplitParen : List Char → Option (List Char × List Char)
  | [] => none
  | c :: cs =>
    match lastSplitParen cs with
    | some (b, a) => some (c :: b, a)
    | none => if c = ')' then some ([], cs) else none

/-- Alternative 3, `\[link\]\((https?|www)\:\/\/\S+\)`: greedy `\S+`
backtracks to the last `)` inside the non-space run, and at least one
character must precede it. -/
def tryMarkdown (s : List Char) : Option (List Char × List Char) :=
  match litP ("[link](").data s with
  | none => none
  | some r1 =>
    match scheme3 r1 with
    | none => none
    | some (sch, r2) =>
      let (run, rest) := takeNonSpace r2
      match lastSplitParen run with
      | some (b, a) =>
        if b.isEmpty then none
        else some (("[link](").data ++ sch ++ b ++ [')'], a ++ rest)
      | none => none

/-- The extension alternation `(html|jpg|png|gif|mp3|mp4)` of alternative 4,
in regex order, each followed by the trailing `\b` check. -/
def tryExts : List (List Char) → List Char → List Char →
    Option (List Char × List Char)
  | [], _, _ => none
  | pat :: more, cs2, rest =>
    match litP pat cs2 with
    | some r2 =>
      if bdryAt pat.getLast? ((r2 ++ rest).head?) then some (pat, r2 ++ rest)
      else tryExts more cs2 rest
    | none => tryExts more cs2 rest

/-- The extensions of alternative 4. -/
def extList : List (List Char) :=
  [("html").data, ("jpg").data, ("png").data, ("gif").data, ("mp3").data,
    ("mp4").data]

/-- The minimal (`\S+` of length one) case of alternative 4: one consumed
character `c`, then `\.`, an extension, and the boundary check. -/
def ext4Fallback (c : Char) : List Char → List Char → Option (List Char × List Char)
  | c2 :: cs2, rest =>
    if c2 = '.' then
      match tryExts extList cs2 rest with
      | some (e, r) => some (c :: c2 :: e, r)
      | none => none
    else none
  | [], _ => none

/-- Greedy-backtracking core of alternative 4 over the non-space run: prefer
the longest `\S+` consumption, then require `\.` plus an extension plus
`\b`. -/
def ext4 : List Char → List Char → Option (List Char × List Char)
  | [], _ => none
  | c :: cs, rest =>
    match ext4 cs rest with
    | some (p, r) => some (c :: p, r)
    | none => ext4Fallback c cs rest

/-- Alternative 4, `\S+\.(html|jpg|png|gif|mp3|mp4)\b` (no leading `\b`). -/
def tryExtension (s : List Char) : Option (List Char × List Char) :=
  let (run, rest) := takeNonSpace s
  ext4 run rest

/-- One attempt of the whole alternation at the current position, in regex
order; on success, the matched characters and the remainder. -/
def tryMatchAt (prev : Option Char) (s : List Char) :
    Option (List Char × List Char) :=
  match tryHttp prev s with
  | some m => some m
  | none =>
    match tryWww prev s with
    | some m => some m
    | none =>
      match tryMarkdown s with
      | some m => some m
      | none => tryExtension s

/-- Global scan: at each position try the alternation; on a match, continue
right after it (tracking the preceding character for `\b`), else advance one
character.  Fuel is the remaining input length; every step consumes at least
one character. -/
def scanAux : Nat → Option Char → List Char → List (List Char)
  | 0, _, _ => []
  | Nat.succ fuel, prev, s =>
    match s with
    | [] => []
    | c :: rest =>
      match tryMatchAt prev (c :: rest) with
      | some (m, r) => m :: scanAux fuel m.getLast? r
      | none => scanAux fuel (some c) rest

/-- `content.match(linkPattern)` with the `g` flag: all matched substrings
in order. -/
def jsMatchAll (s : List Char) : List (List Char) := scanAux s.length none s

/-- JS `match` result: `null` when there is no match. -/
def jsMatch (s : List Char) : Option (List (List Char)) :=
  if (jsMatchAll s).isEmpty then none else some (jsMatchAll s)

/-! ## The `/\[.*?\] <.*?>/` forwarding-shape test and the `/<(.+?)>/`
name extractor of `processWebSocketMessage` -/

/-- After `"] <"`, `.*?>` asks for a `>` further right with no newline
before it. -/
def findGt : List Char → Bool
  | [] => false
  | c :: rest => if c = '>' then true else if c = '\n' then false else findGt rest

/-- After an opening `[`, lazy `.*?` scans (never across a newline) for a
literal `"] <"` from which a closing `>` is reachable. -/
def afterLBracket : List Char → Bool
  | [] => false
  | c :: rest =>
    (match c, rest with
      | ']', ' ' :: '<' :: r2 => findGt r2
      | _, _ => false) ||
    (c != '\n' && afterLBracket rest)

/-- `/\[.*?\] <.*?>/.test(s)`: some position starts a `[` from which the
rest of the pattern matches. -/
def testPattern : List Char → Bool
  | [] => false
  | c :: rest => (c == '[' && afterLBracket rest) || testPattern rest

/-- Lazy `.+?>` after `<` and a first consumed character: the shortest
inner text ending right before the nearest `>`, failing on a newline. -/
def scanClose (acc : List Char) : List Char → Option (List Char)
  | [] => none
  | c :: rest =>
    if c = '>' then some acc.reverse
    else if c = '\n' then none
    else scanClose (c :: acc) rest

/-- `part.match(/<(.+?)>/)` restricted to its capture group: the first
`<`-start from which a non-empty lazy inner run reaches a `>`. -/
def matchAngle : List Char → Option (List Char)
  | [] => none
  | c :: rest =>
    if c = '<' then
      match rest with
      | [] => none
      | c2 :: r2 =>
        if c2 = '\n' then matchAngle rest
        else
          match scanClose [c2] r2 with
          | some inner => some inner
          | none => matchAngle rest
    else matchAngle rest

/-! ## `processWebSocketMessage` (src/src/index.ts lines 374-429) -/

/-- JS `s.split(" ")`: split at every single space, keeping empty pieces. -/
def splitSpAux (acc : List Char) : List Char → List (List Char)
  | [] => [acc.reverse]
  | c :: rest =>
    if c = ' ' then acc.reverse :: splitSpAux [] rest
    else splitSpAux (c :: acc) rest

/-- JS `s.split(" ")`. -/
def jsSplitSpace (s : List Char) : List (List Char) := splitSpAux [] s

/-- JS `parts.join(" ")`. -/
def joinSpace (xs : List (List Char)) : List Char := List.intercalate [' '] xs

/-- The V8 message of the `TypeError` thrown by
`part.match(/<(.+?)>/)[1]` when `match` returned `null`. -/
def nullMatchMsg : List Char :=
  ("Cannot read properties of null (reading \x27match\x27)").data

/-- The `messageParts.map((part, i) => ...)` callback over the parts with
their indices: index 1 becomes the captured name plus `"说: "`, index 2 is
dropped (JS `undefined`) exactly when `指令转发MC消息` is on, everything
else is kept. -/
def modMapAux (trigger : Bool) (inner : List Char) :
    Nat → List (List Char) → List (Option (List Char))
  | _, [] => []
  | i, part :: rest =>
    (if i = 1 then some (inner ++ ("说: ").data
      ) else if i ≠ 2 || !trigger then some part
      else none) :: modMapAux trigger inner (i + 1) rest

/-- `modifiedMessage`: map, then `filter(Boolean)` (dropping both
`undefined` entries and empty-string parts), then `join(" ")`. -/
def buildModified (trigger : Bool) (parts : List (List Char))
    (inner : List Char) : List Char :=
  joinSpace (((modMapAux trigger inner 0 parts).filterMap id).filter
    (fun p => !p.isEmpty))

/-- What one non-suspended `processWebSocketMessage` run did with the
message: called `broadcastMessage` with some text, dropped it (trigger word
absent, or 3-token minimum not met), or caught the thrown `TypeError` in
its `catch` and routed it to `handleError`. -/
inductive WsOutcome where
  | suspendedNotice
  | suspendedSilent
  | broadcastMsg (m : List Char)
  | droppedNoTrigger
  | droppedShort
  | caughtInternal (k : ErrKind)
  deriving DecidableEq

/-- The message-routing body of `processWebSocketMessage` (after the
suspension guard): forward non-pattern messages verbatim; otherwise split on
spaces, require more than 2 tokens, build `modifiedMessage` (whose index-1
step throws if token 1 has no `<...>` group — caught by the surrounding
`try`), and forward it unless trigger mode is on and token 2 differs from
`游戏内触发指令`. -/
def routeMessage (trigger : Bool) (tw : List Char) (msg : List Char) :
    WsOutcome :=
  if !(testPattern msg) then .broadcastMsg msg
  else
    let parts := jsSplitSpace msg
    if 2 < parts.length then
      match matchAngle (parts.getD 1 []) with
      | none => .caughtInternal (classifyError nullMatchMsg)
      | some inner =>
        if !trigger || (trigger && parts.getD 2 [] == tw) then
          .broadcastMsg (buildModified trigger parts inner)
        else .droppedNoTrigger
    else .droppedShort

/-- `processWebSocketMessage`: when `max && max_`, the first run sends the
one-time `endPacket` notice (`hasExecuted` guard, set but never cleared
anywhere in the plugin) and drops the message, later runs drop silently;
otherwise the message is routed. -/
def processWebSocketMessage (trigger : Bool) (tw : List Char)
    (st : PluginState) (msg : List Char) : PluginState × WsOutcome :=
  if st.max && st.max_ then
    if !st.hasExecuted then ({ st with hasExecuted := true }, .suspendedNotice)
    else (st, .suspendedSilent)
  else (st, routeMessage trigger tw msg)

/-! ## The socket `message` listener (src/src/index.ts lines 279-291)

The listener runs `JSON.parse(receivedData).message` with no `try`/`catch`
around it; `JSON.parse` is the external JS builtin, modelled as a parameter
returning either a thrown error or the (optional) `message` field.  An
absent field gives JS `undefined`, which the downstream regex `test`
coerces to the string `"undefined"` and then forwards. -/

/-- A received WebSocket frame. -/
inductive FrameData where
  | textFrame (payload : List Char)
  | binaryFrame
  deriving DecidableEq

/-- The listener's visible result:  a parse failure propagates out of the
listener as an uncaught exception (there is no handler around it), a parsed
message is handed to `processWebSocketMessage`, a binary frame is only
warned about. -/
inductive ListenerOutcome where
  | uncaughtParseException (e : List Char)
  | forwarded (o : WsOutcome)
  | binaryWarned
  deriving DecidableEq

/-- The `message` event listener installed on an authenticated socket. -/
def messageListener
    (jsonParse : List Char → Except (List Char) (Option (List Char)))
    (trigger : Bool) (tw : List Char) (st : PluginState) (data : FrameData) :
    PluginState × ListenerOutcome :=
  match data with
  | .binaryFrame => (st, .binaryWarned)
  | .textFrame payload =>
    match jsonParse payload with
    | .error e => (st, .uncaughtParseException e)
    | .ok mf =>
      let msg := match mf with
        | some s => s
        | none => ("undefined").data
      let (st2, o) := processWebSocketMessage trigger tw st msg
      (st2, .forwarded o)

/-! ## Event traces for the suspension notice (C8) -/

/-- An event hitting the plugin state: a game-side message submission, or
one of the plugin's own writes to the `max`/`max_` flags (the `ready`
handler sets them; every statement clearing them is commented out, and no
statement anywhere assigns `hasExecuted = false` after initialization). -/
inductive BridgeEvent where
  | submitMsg (m : List Char)
  | setFlags (m1 m2 : Bool)
  deriving DecidableEq

/-- One event step; the `Nat` is 1 when this step emitted the "delivery
suspended" notice. -/
def stepEvent (trigger : Bool) (tw : List Char) (st : PluginState) :
    BridgeEvent → PluginState × Nat
  | .submitMsg m =>
    let (st2, o) := processWebSocketMessage trigger tw st m
    (st2, if o = .suspendedNotice then 1 else 0)
  | .setFlags a b => ({ st with max := a, max_ := b }, 0)

/-- Run a trace of events, counting emitted suspension notices. -/
def runEvents (trigger : Bool) (tw : List Char) :
    PluginState → List BridgeEvent → PluginState × Nat
  | st, [] => (st, 0)
  | st, e :: es =>
    let (st2, n) := stepEvent trigger tw st e
    let (st3, m) := runEvents trigger tw st2 es
    (st3, n + m)

/-! ## Text Normalizer (`processMessage` / `processElement`,
src/src/index.ts lines 196-238) -/

mutual
/-- A message element: `type`, `attrs.content`, `attrs.src`, `children`.
(`ElementList` is a specialized list so that the mutual traversal is
structural.) -/
inductive Element where
  | mk (ty : List Char) (content : List Char) (src : List Char)
      (children : ElementList)
/-- The `children` array of an element. -/
inductive ElementList where
  | nil
  | cons (e : Element) (es : ElementList)
end

/-- `短链接服务` modes of `generateShortUrl`: call the external API
(`"true"`), replace with `"省略"` (`"delete"`), or return the URL
unchanged. -/
inductive LinkMode where
  | svc
  | del
  | off
  deriving DecidableEq

/-- `generateShortUrl`; the external HTTP API's successful `short` answer is
the oracle parameter (its failure path throws and is outside the claims
below). -/
def generateShortUrl (mode : LinkMode) (oracle : List Char → List Char)
    (url : List Char) : List Char :=
  match mode with
  | .svc => oracle url
  | .del => ("省略").data
  | .off => url

/-- The replacement text `\x20[链接] ${shortUrl}\x20` spliced in for one
link. -/
def replTok (short : List Char) : List Char :=
  (" [链接] ").data ++ short ++ (" ").data

/-- JS `s.replace(t, r)` with a plain string pattern: replace the first
occurrence of `t`, or return `s` unchanged. -/
def jsReplaceFirst : List Char → List Char → List Char → List Char
  | s, t, r =>
    match litP t s with
    | some rest => r ++ rest
    | none =>
      match s with
      | [] => []
      | c :: s2 => c :: jsReplaceFirst s2 t r

/-- The `for (let link of links)` replacement loop over the current
content. -/
def substLinks (resolve : List Char → List Char) (content : List Char)
    (links : List (List Char)) : List Char :=
  links.foldl (fun acc l => jsReplaceFirst acc l (replTok (resolve l))) content

mutual
/-- `processElement`: emoji types emit `\x20/${type}\x20` and recurse into
children; `img` emits the resolved `src`; `text` rewrites
`element.attrs.content` in place, one first-occurrence replacement per
regex match, and emits the updated content; other types contribute nothing.
The returned element is the (possibly mutated) input element. -/
def processElement (resolve : List Char → List Char) :
    Element → List Char × Element
  | .mk ty content src children =>
    if includesStr ty ("emoji").data then
      let (out, children2) := processChildren resolve children
      ((" /").data ++ ty ++ (" ").data ++ out, .mk ty content src children2)
    else if ty = ("img").data then
      ((" [表情/图片] ").data ++ resolve src ++ (" ").data,
        .mk ty content src children)
    else if ty = ("text").data then
      match jsMatch content with
      | none => (content, .mk ty content src children)
      | some links =>
        let c2 := substLinks resolve content links
        (c2, .mk ty c2 src children)
    else ([], .mk ty content src children)

/-- The `for` loop of `processMessage` over `message.elements` (also used
for emoji children): concatenates outputs, keeping the mutated elements. -/
def processChildren (resolve : List Char → List Char) :
    ElementList → List Char × ElementList
  | .nil => ([], .nil)
  | .cons e es =>
    let (o1, e2) := processElement resolve e
    let (o2, es2) := processChildren resolve es
    (o1 ++ o2, .cons e2 es2)
end

/-- JS `s.indexOf(" ")`. -/
def jsIndexOfSpace : List Char → Int
  | [] => -1
  | c :: rest =>
    if c = ' ' then 0
    else
      let i := jsIndexOfSpace rest
      if i < 0 then -1 else i + 1

/-- `attrsTemp.slice(attrsTemp.indexOf(" ") + 1)`: for a non-negative start
index JS `slice` drops that many characters; `indexOf` returning `-1` gives
`slice(0)`, the whole string. -/
def jsSliceAfterSpace (s : List Char) : List Char :=
  s.drop (jsIndexOfSpace s + 1).toNat

/-- `processMessage`: flatten the element tree, then strip through the first
space when `指令转发频道消息` is configured. -/
def processMessage (resolve : List Char → List Char)
    (cmdForwardChannelMsg : Bool) (elements : ElementList) :
    List Char × ElementList :=
  let (flat, elements2) := processChildren resolve elements
  (if cmdForwardChannelMsg then jsSliceAfterSpace flat else flat, elements2)

/-! ## C2 and C10: game-to-chat forwarding -/

/-- The `map` callback at indices at least 3 keeps every part. -/
theorem modMapAux_ge3 (trigger : Bool) (inner : List Char) (i : Nat)
    (h : 3 ≤ i) (l : List (List Char)) :
    modMapAux trigger inner i l = l.map some := by
  induction l generalizing i with
  | nil => rfl
  | cons a l ih =>
    have h1 : i ≠ 1 := by omega
    have h2 : i ≠ 2 := by omega
    simp only [modMapAux, if_neg h1, List.map_cons]
    rw [if_pos (by simp [h2]), ih (i + 1) (by omega)]

/-- `modifiedMessage` with trigger mode off: token 1 is rewritten to the
captured name plus `"说: "`, all other tokens are kept, empty tokens are
dropped by `filter(Boolean)`. -/
theorem buildModified_off (p0 p1 p2 : List Char) (rest : List (List Char))
    (inner : List Char) :
    buildModified false (p0 :: p1 :: p2 :: rest) inner =
      joinSpace ((p0 :: (inner ++ ("说: ").data) :: p2 :: rest).filter
        (fun p => !p.isEmpty)) := by
  have hmap : modMapAux false inner 0 (p0 :: p1 :: p2 :: rest) =
      some p0 :: some (inner ++ ("说: ").data) :: some p2 :: rest.map some := by
    simp [modMapAux, modMapAux_ge3 false inner 3 le_rfl rest]
  have hrest : List.filterMap id (List.map some rest) = rest := by
    induction rest with
    | nil => rfl
    | cons a l ih => simp [List.filterMap_cons, ih]
  unfold buildModified
  rw [hmap]
  simp [List.filterMap_cons, hrest]

/-- `modifiedMessage` with trigger mode on: token 1 is rewritten, token 2 is
dropped as `undefined`, empty tokens are dropped by `filter(Boolean)`. -/
theorem buildModified_on (p0 p1 p2 : List Char) (rest : List (List Char))
    (inner : List Char) :
    buildModified true (p0 :: p1 :: p2 :: rest) inner =
      joinSpace ((p0 :: (inner ++ ("说: ").data) :: rest).filter
        (fun p => !p.isEmpty)) := by
  have hmap : modMapAux true inner 0 (p0 :: p1 :: p2 :: rest) =
      some p0 :: some (inner ++ ("说: ").data) :: none :: rest.map some := by
    simp [modMapAux, modMapAux_ge3 true inner 3 le_rfl rest]
  have hrest : List.filterMap id (List.map some rest) = rest := by
    induction rest with
    | nil => rfl
    | cons a l ih => simp [List.filterMap_cons, ih]
  unfold buildModified
  rw [hmap]
  simp [List.filterMap_cons, hrest]

/-- C2 counterexample: with `指令转发MC消息` disabled, the inbound game
message `"[Survival] <Alice> hi"` is not forwarded unmodified — the rewrite
runs regardless of trigger mode and the sink receives
`"[Survival] Alice说:  hi"` (note the double space from the template's
trailing space plus the join separator). -/
theorem c2_forwarding_counterexample :
    routeMessage false ("qq").data ("[Survival] <Alice> hi").data =
      .broadcastMsg ("[Survival] Alice说:  hi").data ∧
    ("[Survival] Alice说:  hi").data ≠ ("[Survival] <Alice> hi").data := by
  decide

/-- C2 (amended): a message not matching `/\[.*?\] <.*?>/` is forwarded
verbatim; a matching message with at most 2 space-split tokens is silently
dropped; for a matching message split as `p0 :: p1 :: p2 :: rest` whose
token 1 yields a captured name: with trigger mode on and `p2` different
from the trigger word it is dropped, while any forwarded pattern message —
with trigger mode off (keeping `p2`) or on with `p2` equal to the trigger
word (dropping `p2`) — is first rewritten: token 1 becomes the captured
name plus `"说: "`, the tag token `p0` is kept, and empty tokens vanish. -/
theorem c2_forwarding_amended :
    (∀ (trigger : Bool) (tw msg : List Char),
      testPattern msg = false →
      routeMessage trigger tw msg = .broadcastMsg msg) ∧
    (∀ (trigger : Bool) (tw msg : List Char),
      testPattern msg = true → (jsSplitSpace msg).length ≤ 2 →
      routeMessage trigger tw msg = .droppedShort) ∧
    (∀ (tw msg p0 p1 p2 : List Char) (rest : List (List Char))
        (inner : List Char),
      testPattern msg = true →
      jsSplitSpace msg = p0 :: p1 :: p2 :: rest →
      matchAngle p1 = some inner →
      p2 ≠ tw →
      routeMessage true tw msg = .droppedNoTrigger) ∧
    (∀ (tw msg p0 p1 p2 : List Char) (rest : List (List Char))
        (inner : List Char),
      testPattern msg = true →
      jsSplitSpace msg = p0 :: p1 :: p2 :: rest →
      matchAngle p1 = some inner →
      routeMessage false tw msg = .broadcastMsg
        (joinSpace ((p0 :: (inner ++ ("说: ").data) :: p2 :: rest).filter
          (fun p => !p.isEmpty)))) ∧
    (∀ (tw msg p0 p1 p2 : List Char) (rest : List (List Char))
        (inner : List Char),
      testPattern msg = true →
      jsSplitSpace msg = p0 :: p1 :: p2 :: rest →
      matchAngle p1 = some inner →
      p2 = tw →
      routeMessage true tw msg = .broadcastMsg
        (joinSpace ((p0 :: (inner ++ ("说: ").data) :: rest).filter
          (fun p => !p.isEmpty)))) := by
  refine ⟨?_, ?_, ?_, ?_, ?_⟩
  · intro trigger tw msg h
    simp [routeMessage, h]
  · intro trigger tw msg h hlen
    simp [routeMessage, h, Nat.not_lt.mpr hlen]
  · intro tw msg p0 p1 p2 rest inner h hsplit hangle hne
    simp [routeMessage, h, hsplit, hangle, hne]
  · intro tw msg p0 p1 p2 rest inner h hsplit hangle
    simp [routeMessage, h, hsplit, hangle, buildModified_off]
  · intro tw msg p0 p1 p2 rest inner h hsplit hangle heq
    simp [routeMessage, h, hsplit, hangle, heq, buildModified_on]

/-- C2 witness: the amended forwarding theorem at the concrete trigger-mode
message `"[S] <A> qq hi there"` with trigger word `"qq"`. -/
theorem c2_forwarding_witness :
    testPattern ("[S] <A> qq hi there").data = true ∧
    jsSplitSpace ("[S] <A> qq hi there").data =
      ("[S]").data :: ("<A>").data :: ("qq").data ::
        [("hi").data, ("there").data] ∧
    matchAngle ("<A>").data = some ("A").data ∧
    routeMessage true ("qq").data ("[S] <A> qq hi there").data =
      .broadcastMsg ("[S] A说:  hi there").data := by
  refine ⟨by decide, by decide, by decide, ?_⟩
  have h := c2_forwarding_amended.2.2.2.2 ("qq").data
    ("[S] <A> qq hi there").data ("[S]").data ("<A>").data ("qq").data
    [("hi").data, ("there").data] ("A").data
    (by decide) (by decide) (by decide) rfl
  rw [h]
  decide

/-- C10 counterexample: the claim's example `"[tag] x <name> hi"` does not
match the forwarding pattern at all (it has no `"] <"` substring), so it is
forwarded verbatim in either trigger mode instead of reaching the rewrite
step. -/
theorem c10_null_match_counterexample :
    testPattern ("[tag] x <name> hi").data = false ∧
    routeMessage false ("qq").data ("[tag] x <name> hi").data =
      .broadcastMsg ("[tag] x <name> hi").data ∧
    routeMessage true ("qq").data ("[tag] x <name> hi").data =
      .broadcastMsg ("[tag] x <name> hi").data := by
  decide

/-- C10 (amended): messages matching the forwarding pattern with more than
2 space-split tokens whose token 1 has no `<...>` group exist — e.g.
`"[a x] <b> c"` — and every such message makes the rewrite's
`part.match(/<(.+?)>/)[1]` dereference throw; the `try`/`catch` of
`processWebSocketMessage` catches the `TypeError` and `handleError` routes
it to the generic log-and-drop branch (its message contains neither
`"(reading \x27broadcast\x27)"` nor `"限制"`), so the message is dropped
with a log instead of being forwarded or crashing the process. -/
theorem c10_null_match_caught_amended :
    (testPattern ("[a x] <b> c").data = true ∧
      2 < (jsSplitSpace ("[a x] <b> c").data).length ∧
      matchAngle ((jsSplitSpace ("[a x] <b> c").data).getD 1 []) = none) ∧
    (∀ (trigger : Bool) (tw msg : List Char),
      testPattern msg = true →
      2 < (jsSplitSpace msg).length →
      matchAngle ((jsSplitSpace msg).getD 1 []) = none →
      routeMessage trigger tw msg = .caughtInternal .generic) := by
  refine ⟨by decide, ?_⟩
  intro trigger tw msg h hlen hangle
  have hclassify : classifyError nullMatchMsg = .generic := by decide
  have hangle2 : matchAngle ((jsSplitSpace msg)[1]?.getD []) = none := by
    simpa [List.getD] using hangle
  simp [routeMessage, h, hlen, hangle2, hclassify]

/-- C10 witness: the amended theorem applied at the concrete message
`"[a x] <b> c"`. -/
theorem c10_null_match_caught_witness :
    testPattern ("[a x] <b> c").data = true ∧
    routeMessage true ("qq").data ("[a x] <b> c").data =
      .caughtInternal .generic :=
  ⟨by decide,
    c10_null_match_caught_amended.2 true ("qq").data ("[a x] <b> c").data
      (by decide) (by decide) (by decide)⟩

/-! ## C4: malformed JSON frames -/

/-- A model of `JSON.parse` behaviour on one malformed document: every
payload throws a syntax error (used to instantiate the listener at a
concrete bad frame). -/
def badParse : List Char → Except (List Char) (Option (List Char)) :=
  fun _ => .error ("Unexpected end of JSON input").data

/-- C4 counterexample: at the concrete malformed text frame `"\x7b"` the
listener's `JSON.parse` exception propagates out uncaught — the outcome is
an escaping exception, not a logged-and-discarded protocol error. -/
theorem c4_parse_crash_counterexample :
    (messageListener badParse false [] ⟨[], false, false, false, []⟩
        (.textFrame ("\x7b").data)).2 =
      .uncaughtParseException ("Unexpected end of JSON input").data ∧
    ∀ o, (messageListener badParse false [] ⟨[], false, false, false, []⟩
        (.textFrame ("\x7b").data)).2 ≠ .forwarded o := by
  constructor
  · rfl
  · intro o
    simp [messageListener, badParse]

/-- C4 (amended): for every text frame whose payload makes `JSON.parse`
throw, the exception escapes the `message` listener (no `try`/`catch`
encloses the parse): the plugin logs no protocol error, performs no message
processing, leaves its state unchanged, and does not itself close the
connection — the frame's fate is decided by whatever uncaught-exception
handling surrounds the gateway. -/
theorem c4_parse_uncaught_amended
    (jsonParse : List Char → Except (List Char) (Option (List Char)))
    (trigger : Bool) (tw : List Char) (st : PluginState) (payload e : List Char)
    (hp : jsonParse payload = .error e) :
    messageListener jsonParse trigger tw st (.textFrame payload) =
      (st, .uncaughtParseException e) := by
  simp [messageListener, hp]

/-- C4 witness: the amended theorem at the concrete malformed frame. -/
theorem c4_parse_uncaught_witness :
    badParse ("\x7b").data = .error ("Unexpected end of JSON input").data ∧
    messageListener badParse false [] ⟨[], false, false, false, []⟩
        (.textFrame ("\x7b").data) =
      (⟨[], false, false, false, []⟩,
        .uncaughtParseException ("Unexpected end of JSON input").data) :=
  ⟨rfl, c4_parse_uncaught_amended badParse false [] ⟨[], false, false, false, []⟩
    ("\x7b").data ("Unexpected end of JSON input").data rfl⟩

/-! ## C8: the one-time suspension notice -/

/-- The routing body never emits the suspension notice: that outcome only
exists behind the `max && max_` guard. -/
theorem routeMessage_ne_notice (trigger : Bool) (tw msg : List Char) :
    routeMessage trigger tw msg ≠ .suspendedNotice := by
  unfold routeMessage
  split
  · simp
  · dsimp only
    split
    · split
      · simp
      · split <;> simp
    · simp

/-- A step from a state with `hasExecuted = true` keeps it and emits no
notice. -/
theorem stepEvent_hasExecuted (trigger : Bool) (tw : List Char)
    (st : PluginState) (e : BridgeEvent) (h : st.hasExecuted = true) :
    (stepEvent trigger tw st e).1.hasExecuted = true ∧
    (stepEvent trigger tw st e).2 = 0 := by
  cases e with
  | setFlags a b => simp [stepEvent, h]
  | submitMsg m =>
    by_cases hs : (st.max && st.max_) = true
    · simp [stepEvent, processWebSocketMessage, hs, h]
    · simp [stepEvent, processWebSocketMessage, hs, h,
        routeMessage_ne_notice trigger tw m]

/-- C8 counterexample: over the concrete trace "suspend, submit, resume,
suspend again, submit" the notice is emitted exactly once — the submit of
the second suspension episode is silently dropped, not re-noticed (the
claim would require two notices). -/
theorem c8_notice_counterexample :
    (runEvents false ("qq").data ⟨[], false, false, false, []⟩
      [.setFlags true true, .submitMsg ("a").data, .setFlags false false,
        .setFlags true true, .submitMsg ("b").data]).2 = 1 ∧
    (processWebSocketMessage false ("qq").data
      (runEvents false ("qq").data ⟨[], false, false, false, []⟩
        [.setFlags true true, .submitMsg ("a").data, .setFlags false false,
          .setFlags true true]).1 ("b").data).2 = .suspendedSilent := by
  decide

/-- C8 (amended): the "delivery suspended" notice fires at most once per
plugin lifetime, not once per suspension episode: the first message
submitted while `max && max_` holds and `hasExecuted` is still false sends
the notice and sets `hasExecuted`; any suspended submission with
`hasExecuted` already set is dropped silently; and since no event ever
clears `hasExecuted`, every trace that starts with `hasExecuted = true` —
including any later suspension episode after the flags were cleared and set
again — emits zero further notices. -/
theorem c8_notice_once_per_lifetime_amended :
    (∀ (trigger : Bool) (tw : List Char) (st : PluginState) (m : List Char),
      st.max = true → st.max_ = true → st.hasExecuted = false →
      processWebSocketMessage trigger tw st m =
        ({ st with hasExecuted := true }, .suspendedNotice)) ∧
    (∀ (trigger : Bool) (tw : List Char) (st : PluginState) (m : List Char),
      st.max = true → st.max_ = true → st.hasExecuted = true →
      processWebSocketMessage trigger tw st m = (st, .suspendedSilent)) ∧
    (∀ (trigger : Bool) (tw : List Char) (st : PluginState)
        (es : List BridgeEvent),
      st.hasExecuted = true →
      (runEvents trigger tw st es).1.hasExecuted = true ∧
      (runEvents trigger tw st es).2 = 0) := by
  refine ⟨?_, ?_, ?_⟩
  · intro trigger tw st m h1 h2 h3
    simp [processWebSocketMessage, h1, h2, h3]
  · intro trigger tw st m h1 h2 h3
    simp [processWebSocketMessage, h1, h2, h3]
  · intro trigger tw st es
    induction es generalizing st with
    | nil => intro h; exact ⟨h, rfl⟩
    | cons e es ih =>
      intro h
      have hstep := stepEvent_hasExecuted trigger tw st e h
      have hrec := ih (stepEvent trigger tw st e).1 hstep.1
      refine ⟨?_, ?_⟩
      · simpa [runEvents] using hrec.1
      · simp [runEvents, hstep.2, hrec.2]

/-- C8 witness: the amended theorem at a concrete suspended state: the
first suspended submit emits the notice; with `hasExecuted` set the same
submit is silent; and a whole later trace emits no notice. -/
theorem c8_notice_once_witness :
    processWebSocketMessage false ("qq").data ⟨[], true, true, false, []⟩
        ("a").data =
      (⟨[], true, true, true, []⟩, .suspendedNotice) ∧
    processWebSocketMessage false ("qq").data ⟨[], true, true, true, []⟩
        ("a").data = (⟨[], true, true, true, []⟩, .suspendedSilent) ∧
    (runEvents false ("qq").data ⟨[], true, true, true, []⟩
      [.setFlags false false, .setFlags true true,
        .submitMsg ("b").data]).2 = 0 :=
  ⟨c8_notice_once_per_lifetime_amended.1 false ("qq").data
      ⟨[], true, true, false, []⟩ ("a").data rfl rfl rfl,
    c8_notice_once_per_lifetime_amended.2.1 false ("qq").data
      ⟨[], true, true, true, []⟩ ("a").data rfl rfl rfl,
    (c8_notice_once_per_lifetime_amended.2.2 false ("qq").data
      ⟨[], true, true, true, []⟩
      [.setFlags false false, .setFlags true true,
        .submitMsg ("b").data] rfl).2⟩

/-! ## C5: command-prefix stripping -/

/-- `indexOf(" ")` on a string with no space is `-1`. -/
theorem jsIndexOfSpace_of_not_mem (s : List Char) (h : ' ' ∉ s) :
    jsIndexOfSpace s = -1 := by
  induction s with
  | nil => rfl
  | cons c rest ih =>
    have hc : c ≠ ' ' := fun hc => h (hc ▸ List.mem_cons_self c rest)
    have hr : jsIndexOfSpace rest = -1 := ih (fun hm => h (List.mem_cons_of_mem c hm))
    simp [jsIndexOfSpace, hc, hr]

/-- `indexOf(" ")` finds the first space. -/
theorem jsIndexOfSpace_append (pre rest : List Char) (h : ' ' ∉ pre) :
    jsIndexOfSpace (pre ++ ' ' :: rest) = pre.length := by
  induction pre with
  | nil => simp [jsIndexOfSpace]
  | cons c pre ih =>
    have hc : c ≠ ' ' := fun hcc => h (hcc ▸ List.mem_cons_self c pre)
    have hr := ih (fun hm => h (List.mem_cons_of_mem c hm))
    have hgoal : jsIndexOfSpace (c :: (pre ++ ' ' :: rest)) =
        (if jsIndexOfSpace (pre ++ ' ' :: rest) < 0 then (-1:Int)
          else jsIndexOfSpace (pre ++ ' ' :: rest) + 1) := by
      simp [jsIndexOfSpace, hc]
    rw [List.cons_append, hgoal, hr]
    rw [if_neg (by exact not_lt.mpr (Int.natCast_nonneg _))]
    simp only [List.length_cons]
    omega

/-- Slicing after the first space of a string with no space returns the
string unchanged. -/
theorem jsSliceAfterSpace_no_space (s : List Char) (h : ' ' ∉ s) :
    jsSliceAfterSpace s = s := by
  simp [jsSliceAfterSpace, jsIndexOfSpace_of_not_mem s h]

/-- Slicing after the first space drops exactly through that space. -/
theorem jsSliceAfterSpace_split (pre rest : List Char) (h : ' ' ∉ pre) :
    jsSliceAfterSpace (pre ++ ' ' :: rest) = rest := by
  simp only [jsSliceAfterSpace, jsIndexOfSpace_append pre rest h]
  have : ((pre.length : Int) + 1).toNat = pre.length + 1 := by omega
  rw [this]
  have hsplit : pre ++ ' ' :: rest = (pre ++ [' ']) ++ rest := by simp
  rw [hsplit]
  have hlen : pre.length + 1 = (pre ++ [' ']).length := by simp
  rw [hlen, List.drop_left]

/-- C5 counterexample: on the element tree `[text "mchello"]` (flattened
text with no space) command-prefix stripping returns the whole string
`"mchello"`, not the empty string: `indexOf` returns `-1` and `slice(0)` is
the identity. -/
theorem c5_cmd_strip_counterexample :
    (processMessage (fun u => u) true
      (.cons (.mk ("text").data ("mchello").data [] .nil) .nil)).1 =
      ("mchello").data ∧
    ("mchello").data ≠ ([] : List Char) := by
  exact ⟨rfl, by decide⟩

/-- C5 (amended): with command-prefix stripping enabled, `processMessage`
returns the substring of the flattened text after its first space; when the
flattened text contains no space, `indexOf(" ") = -1` makes `slice(0)`
return the flattened text unchanged (not the empty string). -/
theorem c5_cmd_strip_amended :
    (∀ (resolve : List Char → List Char) (els : ElementList)
        (pre rest : List Char),
      (processMessage resolve false els).1 = pre ++ ' ' :: rest →
      ' ' ∉ pre →
      (processMessage resolve true els).1 = rest) ∧
    (∀ (resolve : List Char → List Char) (els : ElementList),
      ' ' ∉ (processMessage resolve false els).1 →
      (processMessage resolve true els).1 =
        (processMessage resolve false els).1) := by
  constructor
  · intro resolve els pre rest hflat hpre
    have : (processMessage resolve true els).1 =
        jsSliceAfterSpace (processMessage resolve false els).1 := by
      simp [processMessage]
    rw [this, hflat, jsSliceAfterSpace_split pre rest hpre]
  · intro resolve els h
    have : (processMessage resolve true els).1 =
        jsSliceAfterSpace (processMessage resolve false els).1 := by
      simp [processMessage]
    rw [this, jsSliceAfterSpace_no_space _ h]

/-- C5 witness: on the element tree `[text "mc hello world"]` the stripped
result is `"hello world"` (the part after the first space). -/
theorem c5_cmd_strip_witness :
    (processMessage (fun u => u) false
        (.cons (.mk ("text").data ("mc hello world").data [] .nil) .nil)).1 =
      ("mc").data ++ ' ' :: ("hello world").data ∧
    ' ' ∉ ("mc").data ∧
    (processMessage (fun u => u) true
        (.cons (.mk ("text").data ("mc hello world").data [] .nil) .nil)).1 =
      ("hello world").data :=
  ⟨rfl, by decide,
    c5_cmd_strip_amended.1 (fun u => u)
      (.cons (.mk ("text").data ("mc hello world").data [] .nil) .nil)
      ("mc").data ("hello world").data rfl (by decide)⟩

/-! ## C9: in-place mutation of text content

The supporting lemmas show that every substring produced by the link
matcher is a non-empty, space-free substring of its input, that each
first-occurrence replacement splices `" [链接] <resolved> "` in at an
occurrence, and hence that the substituted content has strictly more
space characters than the original — so a text element with at least one
match really is mutated. -/

/-- Space-character count of a string (the replacement text inserts spaces,
matched links never contain any). -/
def countSpaces (s : List Char) : Nat := s.countP (fun c => c == ' ')

/-- A successful literal match consumed exactly the pattern. -/
theorem litP_spec (pat : List Char) :
    ∀ (s r : List Char), litP pat s = some r → s = pat ++ r := by
  induction pat with
  | nil =>
    intro s r h
    simp only [litP, Option.some.injEq] at h
    simp [h]
  | cons p ps ih =>
    intro s r h
    cases s with
    | nil => simp [litP] at h
    | cons c s2 =>
      by_cases hc : c = p
      · simp only [litP, if_pos hc] at h
        subst hc
        rw [List.cons_append]
        exact congrArg (List.cons c) (ih s2 r h)
      · simp [litP, hc] at h

/-- The literal matcher accepts its own pattern as a prefix. -/
theorem litP_append (t post : List Char) : litP t (t ++ post) = some post := by
  induction t with
  | nil => rfl
  | cons c t ih => simp [litP, ih]

/-- `takeNonSpace` splits the input, and the run is space-free. -/
theorem takeNonSpace_spec :
    ∀ (s run rest : List Char), takeNonSpace s = (run, rest) →
      s = run ++ rest ∧ ∀ c ∈ run, isSpaceJs c = false := by
  intro s
  induction s with
  | nil =>
    intro run rest h
    rw [takeNonSpace] at h
    injection h with h1 h2
    subst h1; subst h2
    exact ⟨rfl, by intro c hc; cases hc⟩
  | cons c s2 ih =>
    intro run rest h
    by_cases hc : isSpaceJs c
    · rw [takeNonSpace, if_pos hc] at h
      injection h with h1 h2
      subst h1; subst h2
      exact ⟨rfl, by intro x hx; cases hx⟩
    · rcases hts : takeNonSpace s2 with ⟨run2, r2⟩
      rw [takeNonSpace, if_neg hc, hts] at h
      injection h with h1 h2
      subst h1; subst h2
      obtain ⟨hsp, hns⟩ := ih run2 r2 hts
      refine ⟨by rw [List.cons_append, ← hsp], ?_⟩
      intro x hx
      rcases List.mem_cons.mp hx with hx | hx
      · subst hx; simpa using hc
      · exact hns x hx

/-- The longest-boundary backtracking step consumes a non-empty space-free
prefix of the run. -/
theorem longestBdry_spec :
    ∀ (run rest p r : List Char), longestBdry run rest = some (p, r) →
      run ++ rest = p ++ r ∧ p ≠ [] ∧ ∃ suf, run = p ++ suf := by
  intro run
  induction run with
  | nil => intro rest p r h; simp [longestBdry] at h
  | cons c cs ih =>
    intro rest p r h
    rcases hlb : longestBdry cs rest with _ | ⟨p2, r2⟩
    · by_cases hb : bdryAt (some c) ((cs ++ rest).head?) = true
      · simp only [longestBdry, hlb, hb, if_true, Option.some.injEq,
          Prod.mk.injEq] at h
        obtain ⟨h1, h2⟩ := h
        subst h1; subst h2
        exact ⟨rfl, by simp, cs, by simp⟩
      · simp only [longestBdry, hlb, hb, if_false, Bool.false_eq_true,
          reduceCtorEq] at h
    · simp only [longestBdry, hlb, Option.some.injEq, Prod.mk.injEq] at h
      obtain ⟨h1, h2⟩ := h
      subst h1; subst h2
      obtain ⟨hsp, hne, suf, hpre⟩ := ih rest p2 r2 hlb
      refine ⟨?_, by simp, suf, by rw [hpre, List.cons_append]⟩
      rw [List.cons_append, hsp, List.cons_append]

/-- `tailNonSpaceBdry` appends a non-empty space-free piece of its input to
the already-consumed literal. -/
theorem tailNonSpaceBdry_spec (consumed r1 m r : List Char)
    (h : tailNonSpaceBdry consumed r1 = some (m, r)) :
    ∃ p, m = consumed ++ p ∧ r1 = p ++ r ∧ p ≠ [] ∧
      ∀ c ∈ p, isSpaceJs c = false := by
  rcases hts : takeNonSpace r1 with ⟨run, rest⟩
  simp only [tailNonSpaceBdry, hts] at h
  rcases hlb : longestBdry run rest with _ | ⟨p2, r2⟩
  · simp only [hlb, reduceCtorEq] at h
  · simp only [hlb, Option.some.injEq, Prod.mk.injEq] at h
    obtain ⟨h1, h2⟩ := h
    subst h1; subst h2
    obtain ⟨hsp, hns⟩ := takeNonSpace_spec r1 run rest hts
    obtain ⟨hsp2, hne, suf, hpre⟩ := longestBdry_spec run rest p2 r2 hlb
    refine ⟨p2, rfl, ?_, hne, ?_⟩
    · rw [hsp, hsp2]
    · intro c hc
      exact hns c (by rw [hpre]; exact List.mem_append_left suf hc)

/-- Alternative 1 consumes a non-empty space-free prefix. -/
theorem tryHttp_spec (prev : Option Char) (s m r : List Char)
    (h : tryHttp prev s = some (m, r)) :
    s = m ++ r ∧ m ≠ [] ∧ ∀ c ∈ m, isSpaceJs c = false := by
  rw [tryHttp] at h
  by_cases hb : bdryAt prev s.head? = true
  · rw [if_pos hb] at h
    rcases hl1 : litP ("https://").data s with _ | r1
    · rw [hl1] at h
      rcases hl2 : litP ("http://").data s with _ | r1
      · rw [hl2] at h; cases h
      · rw [hl2] at h
        obtain ⟨p, hm, hr1, hne, hns⟩ := tailNonSpaceBdry_spec _ _ _ _ h
        subst hm
        refine ⟨?_, by simp, ?_⟩
        · rw [litP_spec _ _ _ hl2, hr1, List.append_assoc]
        · intro c hc
          rcases List.mem_append.mp hc with hc | hc
          · have hlit : ∀ x ∈ ("http://").data, isSpaceJs x = false := by
              decide
            exact hlit c hc
          · exact hns c hc
    · rw [hl1] at h
      obtain ⟨p, hm, hr1, hne, hns⟩ := tailNonSpaceBdry_spec _ _ _ _ h
      subst hm
      refine ⟨?_, by simp, ?_⟩
      · rw [litP_spec _ _ _ hl1, hr1, List.append_assoc]
      · intro c hc
        rcases List.mem_append.mp hc with hc | hc
        · have hlit : ∀ x ∈ ("https://").data, isSpaceJs x = false := by
            decide
          exact hlit c hc
        · exact hns c hc
  · rw [if_neg hb] at h; cases h

/-- Alternative 2 consumes a non-empty space-free prefix. -/
theorem tryWww_spec (prev : Option Char) (s m r : List Char)
    (h : tryWww prev s = some (m, r)) :
    s = m ++ r ∧ m ≠ [] ∧ ∀ c ∈ m, isSpaceJs c = false := by
  rw [tryWww] at h
  by_cases hb : bdryAt prev s.head? = true
  · rw [if_pos hb] at h
    rcases hl1 : litP ("www.").data s with _ | r1
    · rw [hl1] at h; cases h
    · rw [hl1] at h
      obtain ⟨p, hm, hr1, hne, hns⟩ := tailNonSpaceBdry_spec _ _ _ _ h
      subst hm
      refine ⟨?_, by simp, ?_⟩
      · rw [litP_spec _ _ _ hl1, hr1, List.append_assoc]
      · intro c hc
        rcases List.mem_append.mp hc with hc | hc
        · have hlit : ∀ x ∈ ("www.").data, isSpaceJs x = false := by decide
          exact hlit c hc
        · exact hns c hc
  · rw [if_neg hb] at h; cases h

/-- Alternative 3's scheme alternation consumes its matched literal. -/
theorem scheme3_spec (r1 sch r2 : List Char) (h : scheme3 r1 = some (sch, r2)) :
    r1 = sch ++ r2 ∧ ∀ c ∈ sch, isSpaceJs c = false := by
  rcases h1 : litP ("https://").data r1 with _ | ra
  · rcases h2 : litP ("http://").data r1 with _ | rb
    · rcases h3 : litP ("www://").data r1 with _ | rc
      · simp only [scheme3, h1, h2, h3, reduceCtorEq] at h
      · simp only [scheme3, h1, h2, h3, Option.some.injEq, Prod.mk.injEq] at h
        obtain ⟨hs, hr⟩ := h
        subst hs; subst hr
        exact ⟨litP_spec _ _ _ h3, by decide⟩
    · simp only [scheme3, h1, h2, Option.some.injEq, Prod.mk.injEq] at h
      obtain ⟨hs, hr⟩ := h
      subst hs; subst hr
      exact ⟨litP_spec _ _ _ h2, by decide⟩
  · simp only [scheme3, h1, Option.some.injEq, Prod.mk.injEq] at h
    obtain ⟨hs, hr⟩ := h
    subst hs; subst hr
    exact ⟨litP_spec _ _ _ h1, by decide⟩

/-- `lastSplitParen` splits at a `)`. -/
theorem lastSplitParen_spec :
    ∀ (run b a : List Char), lastSplitParen run = some (b, a) →
      run = b ++ ')' :: a := by
  intro run
  induction run with
  | nil => intro b a h; simp [lastSplitParen] at h
  | cons c cs ih =>
    intro b a h
    rcases hl : lastSplitParen cs with _ | ⟨b2, a2⟩
    · by_cases hc : c = ')'
      · simp only [lastSplitParen, hl, hc, if_true, Option.some.injEq,
          Prod.mk.injEq] at h
        obtain ⟨h1, h2⟩ := h
        subst h1; subst h2
        simp [hc]
      · simp only [lastSplitParen, hl, hc, if_false, reduceCtorEq] at h
    · simp only [lastSplitParen, hl, Option.some.injEq, Prod.mk.injEq] at h
      obtain ⟨h1, h2⟩ := h
      subst h1; subst h2
      rw [List.cons_append, ih b2 a2 hl]

/-- Alternative 3 consumes a non-empty space-free prefix. -/
theorem tryMarkdown_spec (s m r : List Char) (h : tryMarkdown s = some (m, r)) :
    s = m ++ r ∧ m ≠ [] ∧ ∀ c ∈ m, isSpaceJs c = false := by
  rcases h1 : litP ("[link](").data s with _ | r1
  · simp only [tryMarkdown, h1, reduceCtorEq] at h
  · rcases h2 : scheme3 r1 with _ | ⟨sch, r2⟩
    · simp only [tryMarkdown, h1, h2, reduceCtorEq] at h
    · rcases hts : takeNonSpace r2 with ⟨run, rest⟩
      rcases h3 : lastSplitParen run with _ | ⟨b, a⟩
      · simp only [tryMarkdown, h1, h2, hts, h3, reduceCtorEq] at h
      · by_cases hb : b.isEmpty = true
        · simp only [tryMarkdown, h1, h2, hts, h3, hb, if_true,
            reduceCtorEq] at h
        · simp only [tryMarkdown, h1, h2, hts, h3, hb, Bool.false_eq_true,
            if_false, Option.some.injEq, Prod.mk.injEq] at h
          obtain ⟨hm, hr⟩ := h
          subst hm; subst hr
          have hs1 := litP_spec _ _ _ h1
          obtain ⟨hs2, hns2⟩ := scheme3_spec r1 sch r2 h2
          obtain ⟨hs3, hns3⟩ := takeNonSpace_spec r2 run rest hts
          have hs4 := lastSplitParen_spec run b a h3
          refine ⟨?_, by simp, ?_⟩
          · rw [hs1, hs2, hs3, hs4]
            simp [List.append_assoc]
          · intro c hc
            simp only [List.append_assoc, List.mem_append] at hc
            rcases hc with hc | hc | hc | hc
            · have hlit : ∀ x ∈ ("[link](").data, isSpaceJs x = false := by
                decide
              exact hlit c hc
            · exact hns2 c hc
            · exact hns3 c (by rw [hs4]; exact List.mem_append_left _ hc)
            · have hc2 : c = ')' := by simpa using hc
              subst hc2; decide

/-- The extension alternation consumes one of its (space-free) literals. -/
theorem tryExts_spec :
    ∀ (pats : List (List Char)) (cs2 rest e r : List Char),
      (∀ p ∈ pats, ∀ c ∈ p, isSpaceJs c = false) →
      tryExts pats cs2 rest = some (e, r) →
      cs2 ++ rest = e ++ r ∧ ∀ c ∈ e, isSpaceJs c = false := by
  intro pats
  induction pats with
  | nil => intro cs2 rest e r hp h; simp [tryExts] at h
  | cons pat more ih =>
    intro cs2 rest e r hp h
    rcases h1 : litP pat cs2 with _ | r2
    · simp only [tryExts, h1] at h
      exact ih cs2 rest e r (fun p hm => hp p (List.mem_cons_of_mem _ hm)) h
    · by_cases hbd : bdryAt pat.getLast? ((r2 ++ rest).head?) = true
      · simp only [tryExts, h1, hbd, if_true, Option.some.injEq,
          Prod.mk.injEq] at h
        obtain ⟨h2, h3⟩ := h
        subst h2; subst h3
        refine ⟨?_, fun c hc => hp pat (List.mem_cons_self _ _) c hc⟩
        rw [litP_spec _ _ _ h1, List.append_assoc]
      · simp only [tryExts, h1, hbd, Bool.false_eq_true, if_false] at h
        exact ih cs2 rest e r (fun p hm => hp p (List.mem_cons_of_mem _ hm)) h

/-- The one-character fallback of alternative 4 consumes a non-empty
space-free prefix. -/
theorem ext4Fallback_spec (c : Char) (cs rest p r : List Char)
    (hc : isSpaceJs c = false)
    (hcs : ∀ x ∈ cs, isSpaceJs x = false)
    (h : ext4Fallback c cs rest = some (p, r)) :
    (c :: cs) ++ rest = p ++ r ∧ p ≠ [] ∧ ∀ x ∈ p, isSpaceJs x = false := by
  cases cs with
  | nil => simp [ext4Fallback] at h
  | cons c2 cs2 =>
    by_cases hdot : c2 = '.'
    · rcases h2 : tryExts extList cs2 rest with _ | ⟨e, r3⟩
      · simp only [ext4Fallback, hdot, if_true, h2, reduceCtorEq] at h
      · simp only [ext4Fallback, hdot, if_true, h2, Option.some.injEq,
          Prod.mk.injEq] at h
        obtain ⟨hp, hr⟩ := h
        subst hp; subst hr
        obtain ⟨hsp, hnse⟩ := tryExts_spec extList cs2 rest e r3 (by decide) h2
        refine ⟨by simp [hsp, hdot], by simp, ?_⟩
        intro x hx
        rcases List.mem_cons.mp hx with hx | hx
        · subst hx; exact hc
        · rcases List.mem_cons.mp hx with hx | hx
          · subst hx; decide
          · exact hnse x hx
    · simp only [ext4Fallback, hdot, if_false, reduceCtorEq] at h

/-- The greedy core of alternative 4 consumes a non-empty space-free prefix
of the run. -/
theorem ext4_spec :
    ∀ (run rest p r : List Char),
      (∀ c ∈ run, isSpaceJs c = false) →
      ext4 run rest = some (p, r) →
      run ++ rest = p ++ r ∧ p ≠ [] ∧ ∀ c ∈ p, isSpaceJs c = false := by
  intro run
  induction run with
  | nil => intro rest p r _ h; simp [ext4] at h
  | cons c cs ih =>
    intro rest p r hrun h
    have hc : isSpaceJs c = false := hrun c (List.mem_cons_self _ _)
    have hcs : ∀ x ∈ cs, isSpaceJs x = false := fun x hx =>
      hrun x (List.mem_cons_of_mem _ hx)
    rcases h1 : ext4 cs rest with _ | ⟨p2, r2⟩
    · simp only [ext4, h1] at h
      exact ext4Fallback_spec c cs rest p r hc hcs h
    · simp only [ext4, h1, Option.some.injEq, Prod.mk.injEq] at h
      obtain ⟨hp, hr⟩ := h
      subst hp; subst hr
      obtain ⟨hs, hne, hns⟩ := ih rest p2 r2 hcs h1
      refine ⟨by rw [List.cons_append, hs, List.cons_append], by simp, ?_⟩
      intro x hx
      rcases List.mem_cons.mp hx with hx | hx
      · subst hx; exact hc
      · exact hns x hx

/-- Alternative 4 consumes a non-empty space-free prefix. -/
theorem tryExtension_spec (s m r : List Char)
    (h : tryExtension s = some (m, r)) :
    s = m ++ r ∧ m ≠ [] ∧ ∀ c ∈ m, isSpaceJs c = false := by
  rcases hts : takeNonSpace s with ⟨run, rest⟩
  simp only [tryExtension, hts] at h
  obtain ⟨hsp, hns⟩ := takeNonSpace_spec s run rest hts
  obtain ⟨hs, hne, hnsp⟩ := ext4_spec run rest m r hns h
  exact ⟨by rw [hsp, hs], hne, hnsp⟩

/-- Every alternation match consumes a non-empty space-free prefix. -/
theorem tryMatchAt_spec (prev : Option Char) (s m r : List Char)
    (h : tryMatchAt prev s = some (m, r)) :
    s = m ++ r ∧ m ≠ [] ∧ ∀ c ∈ m, isSpaceJs c = false := by
  rcases h1 : tryHttp prev s with _ | ⟨m1, r1⟩
  · rcases h2 : tryWww prev s with _ | ⟨m2, r2⟩
    · rcases h3 : tryMarkdown s with _ | ⟨m3, r3⟩
      · simp only [tryMatchAt, h1, h2, h3] at h
        exact tryExtension_spec s m r h
      · simp only [tryMatchAt, h1, h2, h3, Option.some.injEq,
          Prod.mk.injEq] at h
        obtain ⟨ha, hb⟩ := h
        subst ha; subst hb
        exact tryMarkdown_spec s m3 r3 h3
    · simp only [tryMatchAt, h1, h2, Option.some.injEq, Prod.mk.injEq] at h
      obtain ⟨ha, hb⟩ := h
      subst ha; subst hb
      exact tryWww_spec prev s m2 r2 h2
  · simp only [tryMatchAt, h1, Option.some.injEq, Prod.mk.injEq] at h
    obtain ⟨ha, hb⟩ := h
    subst ha; subst hb
    exact tryHttp_spec prev s m1 r1 h1

/-- Every match produced by the global scan is a non-empty space-free
substring of the scanned input. -/
theorem scanAux_mem :
    ∀ (fuel : Nat) (prev : Option Char) (s m : List Char),
      m ∈ scanAux fuel prev s →
      m ≠ [] ∧ (∀ c ∈ m, isSpaceJs c = false) ∧
        ∃ pre post, s = pre ++ m ++ post := by
  intro fuel
  induction fuel with
  | zero => intro prev s m h; simp [scanAux] at h
  | succ fuel ih =>
    intro prev s m h
    cases s with
    | nil => simp [scanAux] at h
    | cons c rest =>
      rcases htm : tryMatchAt prev (c :: rest) with _ | ⟨m0, r0⟩
      · simp only [scanAux, htm] at h
        obtain ⟨hne, hns, pre, post, hsp⟩ := ih (some c) rest m h
        exact ⟨hne, hns, c :: pre, post, by rw [hsp]; simp⟩
      · simp only [scanAux, htm, List.mem_cons] at h
        rcases h with h | h
        · subst h
          obtain ⟨hsp, hne, hns⟩ := tryMatchAt_spec prev (c :: rest) m r0 htm
          exact ⟨hne, hns, [], r0, by simpa using hsp⟩
        · obtain ⟨hne, hns, pre, post, hsp⟩ := ih m0.getLast? r0 m h
          obtain ⟨hsp0, hne0, hns0⟩ := tryMatchAt_spec prev (c :: rest) m0 r0 htm
          exact ⟨hne, hns, m0 ++ pre, post,
            by rw [hsp0, hsp]; simp [List.append_assoc]⟩

/-- Every match returned by `content.match(linkPattern)` is a non-empty
space-free substring of `content`, and the returned list is non-empty. -/
theorem jsMatch_spec (content : List Char) (ls : List (List Char))
    (h : jsMatch content = some ls) :
    ls ≠ [] ∧ ∀ m ∈ ls, m ≠ [] ∧ (∀ c ∈ m, isSpaceJs c = false) ∧
      ∃ pre post, content = pre ++ m ++ post := by
  rw [jsMatch] at h
  by_cases he : (jsMatchAll content).isEmpty = true
  · rw [if_pos he] at h; cases h
  · rw [if_neg he] at h
    injection h with h1
    subst h1
    refine ⟨by simpa [List.isEmpty_iff] using he, ?_⟩
    intro m hm
    exact scanAux_mem content.length none content m hm

/-- Space count of a cons. -/
theorem countSpaces_cons (c : Char) (l : List Char) :
    countSpaces (c :: l) = (if c == ' ' then 1 else 0) + countSpaces l := by
  simp [countSpaces, List.countP_cons]
  split <;> omega

/-- Space count distributes over append. -/
theorem countSpaces_append (a b : List Char) :
    countSpaces (a ++ b) = countSpaces a + countSpaces b := by
  simp [countSpaces, List.countP_append]

/-- Space-free strings contribute no spaces. -/
theorem countSpaces_of_nonspace (t : List Char)
    (ht : ∀ c ∈ t, isSpaceJs c = false) : countSpaces t = 0 := by
  rw [countSpaces, List.countP_eq_zero]
  intro a ha hbe
  have ha2 : a = ' ' := by simpa using hbe
  subst ha2
  exact absurd (ht ' ' ha) (by decide)

/-- The spliced-in replacement text carries the resolved URL plus three
spaces. -/
theorem countSpaces_replTok (x : List Char) :
    countSpaces (replTok x) = countSpaces x + 3 := by
  have h1 : countSpaces (" [链接] ").data = 2 := by decide
  have h2 : countSpaces (" ").data = 1 := by decide
  rw [replTok, countSpaces_append, countSpaces_append, h1, h2]
  omega

/-- Replacing a space-free pattern never reduces the space count. -/
theorem jsReplaceFirst_count_ge (t r : List Char)
    (ht : ∀ c ∈ t, isSpaceJs c = false) :
    ∀ s : List Char, countSpaces s ≤ countSpaces (jsReplaceFirst s t r) := by
  intro s
  induction s with
  | nil =>
    rcases hl : litP t [] with _ | rest
    · simp [jsReplaceFirst, hl]
    · simp only [jsReplaceFirst, hl]
      exact Nat.zero_le _
  | cons c s2 ih =>
    rcases hl : litP t (c :: s2) with _ | rest
    · simp only [jsReplaceFirst, hl]
      rw [countSpaces_cons, countSpaces_cons]
      omega
    · simp only [jsReplaceFirst, hl]
      rw [litP_spec t (c :: s2) rest hl, countSpaces_append,
        countSpaces_append, countSpaces_of_nonspace t ht]
      omega

/-- When the pattern occurs, `replace` splices the replacement in at an
occurrence. -/
theorem jsReplaceFirst_found (t r : List Char) (htne : t ≠ []) :
    ∀ (s pre post : List Char), s = pre ++ t ++ post →
      ∃ pre2 post2, s = pre2 ++ t ++ post2 ∧
        jsReplaceFirst s t r = pre2 ++ r ++ post2 := by
  intro s
  induction s with
  | nil =>
    intro pre post hocc
    exfalso
    rcases List.append_eq_nil.mp hocc.symm with ⟨h1, h2⟩
    rcases List.append_eq_nil.mp h1 with ⟨h3, h4⟩
    exact htne h4
  | cons c s2 ih =>
    intro pre post hocc
    rcases hl : litP t (c :: s2) with _ | rest
    · cases pre with
      | nil =>
        exfalso
        simp only [List.nil_append] at hocc
        rw [hocc, litP_append] at hl
        cases hl
      | cons cp pre2 =>
        simp only [List.cons_append, List.cons.injEq] at hocc
        obtain ⟨hc0, hs2⟩ := hocc
        subst hc0
        obtain ⟨pre3, post3, hocc3, hrw⟩ := ih pre2 post hs2
        refine ⟨c :: pre3, post3, by simp [hocc3], ?_⟩
        simp only [jsReplaceFirst, hl]
        simp [hrw]
    · refine ⟨[], rest, by simpa using litP_spec t _ rest hl, ?_⟩
      simp only [jsReplaceFirst, hl]
      simp

/-- When the pattern occurs and is space-free, `replace` adds exactly the
replacement's spaces. -/
theorem jsReplaceFirst_count_found (t r s pre post : List Char)
    (ht : ∀ c ∈ t, isSpaceJs c = false) (htne : t ≠ [])
    (hocc : s = pre ++ t ++ post) :
    countSpaces (jsReplaceFirst s t r) = countSpaces s + countSpaces r := by
  obtain ⟨p2, q2, hs, hr⟩ := jsReplaceFirst_found t r htne s pre post hocc
  rw [hr, hs, countSpaces_append, countSpaces_append, countSpaces_append,
    countSpaces_append, countSpaces_of_nonspace t ht]
  omega

/-- Each replacement step either leaves the string unchanged or leaves a
`" [链接] "` marker in it. -/
theorem jsReplaceFirst_tok (t x : List Char) :
    ∀ s : List Char, jsReplaceFirst s t (replTok x) = s ∨
      ∃ p q, jsReplaceFirst s t (replTok x) = p ++ (" [链接] ").data ++ q := by
  intro s
  induction s with
  | nil =>
    rcases hl : litP t [] with _ | rest
    · left; simp [jsReplaceFirst, hl]
    · right
      refine ⟨[], x ++ (" ").data ++ rest, ?_⟩
      simp only [jsReplaceFirst, hl]
      simp [replTok]
  | cons c s2 ih =>
    rcases hl : litP t (c :: s2) with _ | rest
    · rcases ih with ih | ⟨p, q, ih⟩
      · left
        simp only [jsReplaceFirst, hl]
        simp [ih]
      · right
        refine ⟨c :: p, q, ?_⟩
        simp only [jsReplaceFirst, hl]
        simp [ih]
    · right
      refine ⟨[], x ++ (" ").data ++ rest, ?_⟩
      simp only [jsReplaceFirst, hl]
      simp [replTok]

/-- Folding space-free replacements never reduces the space count. -/
theorem substLinks_count_ge (resolve : List Char → List Char) :
    ∀ (ls : List (List Char)) (acc : List Char),
      (∀ l ∈ ls, ∀ c ∈ l, isSpaceJs c = false) →
      countSpaces acc ≤ countSpaces (substLinks resolve acc ls) := by
  intro ls
  induction ls with
  | nil => intro acc h; simp [substLinks]
  | cons l ls ih =>
    intro acc h
    have h1 := jsReplaceFirst_count_ge l (replTok (resolve l))
      (h l (List.mem_cons_self _ _)) acc
    have h2 := ih (jsReplaceFirst acc l (replTok (resolve l)))
      (fun l2 hm => h l2 (List.mem_cons_of_mem _ hm))
    have h3 : substLinks resolve acc (l :: ls) =
        substLinks resolve (jsReplaceFirst acc l (replTok (resolve l))) ls := by
      simp [substLinks]
    rw [h3]
    omega

/-- Folding replacements preserves a `" [链接] "` marker. -/
theorem substLinks_tok (resolve : List Char → List Char) :
    ∀ (ls : List (List Char)) (acc : List Char),
      (∃ p q, acc = p ++ (" [链接] ").data ++ q) →
      ∃ p q, substLinks resolve acc ls = p ++ (" [链接] ").data ++ q := by
  intro ls
  induction ls with
  | nil => intro acc h; simpa [substLinks] using h
  | cons l ls ih =>
    intro acc h
    have hstep := jsReplaceFirst_tok l (resolve l) acc
    have h4 : substLinks resolve acc (l :: ls) =
        substLinks resolve (jsReplaceFirst acc l (replTok (resolve l))) ls := by
      simp [substLinks]
    rw [h4]
    rcases hstep with hstep | hstep
    · exact ih _ (hstep.symm ▸ h)
    · exact ih _ hstep

/-- The full substitution loop over a genuine match list strictly increases
the space count and leaves a `" [链接] "` marker. -/
theorem substLinks_strict (resolve : List Char → List Char)
    (content l0 : List Char) (ls2 : List (List Char))
    (h0ne : l0 ≠ []) (h0ns : ∀ c ∈ l0, isSpaceJs c = false)
    (hocc : ∃ pre post, content = pre ++ l0 ++ post)
    (hls : ∀ l ∈ ls2, ∀ c ∈ l, isSpaceJs c = false) :
    countSpaces content < countSpaces (substLinks resolve content (l0 :: ls2)) ∧
    ∃ p q, substLinks resolve content (l0 :: ls2) =
      p ++ (" [链接] ").data ++ q := by
  obtain ⟨pre, post, hocc⟩ := hocc
  have hstep : countSpaces (jsReplaceFirst content l0 (replTok (resolve l0))) =
      countSpaces content + countSpaces (replTok (resolve l0)) :=
    jsReplaceFirst_count_found l0 (replTok (resolve l0)) content pre post
      h0ns h0ne hocc
  have hrepl := countSpaces_replTok (resolve l0)
  have hcons : substLinks resolve content (l0 :: ls2) =
      substLinks resolve (jsReplaceFirst content l0 (replTok (resolve l0)))
        ls2 := by
    simp [substLinks]
  constructor
  · have hge := substLinks_count_ge resolve ls2
      (jsReplaceFirst content l0 (replTok (resolve l0))) hls
    rw [hcons]
    omega
  · obtain ⟨p2, q2, hs, hr⟩ := jsReplaceFirst_found l0 (replTok (resolve l0))
      h0ne content pre post hocc
    have hcont : ∃ p q, jsReplaceFirst content l0 (replTok (resolve l0)) =
        p ++ (" [链接] ").data ++ q := by
      refine ⟨p2, resolve l0 ++ (" ").data ++ q2, ?_⟩
      rw [hr]
      simp [replTok]
    rw [hcons]
    exact substLinks_tok resolve ls2 _ hcont

mutual
/-- Whether the traversal would substitute nothing in this element: emoji
nodes defer to their children, text nodes require `match` to return `null`,
and `img`/unknown nodes never touch `attrs.content`. -/
def noLinks : Element → Bool
  | .mk ty content _ ch =>
    if includesStr ty ("emoji").data then noLinksList ch
    else if ty = ("img").data then true
    else if ty = ("text").data then (jsMatch content).isNone
    else true
/-- `noLinks` over a children array. -/
def noLinksList : ElementList → Bool
  | .nil => true
  | .cons e es => noLinks e && noLinksList es
end

mutual
/-- Forget every `attrs.content` in a tree (the only field the traversal
may mutate). -/
def eraseContents : Element → Element
  | .mk ty _ src ch => .mk ty [] src (eraseContentsList ch)
/-- `eraseContents` over a children array. -/
def eraseContentsList : ElementList → ElementList
  | .nil => .nil
  | .cons e es => .cons (eraseContents e) (eraseContentsList es)
end

mutual
/-- The traversal changes nothing besides `attrs.content` fields. -/
theorem processElement_skeleton (resolve : List Char → List Char)
    (e : Element) :
    eraseContents (processElement resolve e).2 = eraseContents e := by
  cases e with
  | mk ty content src ch =>
    by_cases h1 : includesStr ty ("emoji").data = true
    · rcases hpc : processChildren resolve ch with ⟨o, ch2⟩
      have hch := processChildren_skeleton resolve ch
      rw [hpc] at hch
      simp [processElement, h1, hpc, eraseContents, hch]
    · by_cases h2 : ty = ("img").data
      · simp +decide [processElement, h1, h2]
      · by_cases h3 : ty = ("text").data
        · rcases hm : jsMatch content with _ | ls
          · simp +decide [processElement, h1, h2, h3, hm]
          · simp +decide [processElement, h1, h2, h3, hm, eraseContents]
        · simp [processElement, h1, h2, h3]

/-- The children traversal changes nothing besides `attrs.content`. -/
theorem processChildren_skeleton (resolve : List Char → List Char)
    (es : ElementList) :
    eraseContentsList (processChildren resolve es).2 = eraseContentsList es := by
  cases es with
  | nil => rfl
  | cons e es2 =>
    rcases hpe : processElement resolve e with ⟨o1, e2⟩
    rcases hps : processChildren resolve es2 with ⟨o2, es3⟩
    have h1 := processElement_skeleton resolve e
    have h2 := processChildren_skeleton resolve es2
    rw [hpe] at h1
    rw [hps] at h2
    simp [processChildren, hpe, hps, eraseContentsList, h1, h2]
end

mutual
/-- An element with no link matches anywhere is returned unchanged. -/
theorem processElement_noLinks (resolve : List Char → List Char) (e : Element)
    (h : noLinks e = true) : (processElement resolve e).2 = e := by
  cases e with
  | mk ty content src ch =>
    by_cases h1 : includesStr ty ("emoji").data = true
    · rcases hpc : processChildren resolve ch with ⟨o, ch2⟩
      have hnl : noLinksList ch = true := by
        simpa [noLinks, h1] using h
      have hch := processChildren_noLinks resolve ch hnl
      rw [hpc] at hch
      simp [processElement, h1, hpc, hch]
    · by_cases h2 : ty = ("img").data
      · simp +decide [processElement, h1, h2]
      · by_cases h3 : ty = ("text").data
        · have hm : jsMatch content = none := by
            have h4 := h
            simp [noLinks, h1, h2, h3, Option.isNone_iff_eq_none] at h4
            exact h4
          simp +decide [processElement, h1, h2, h3, hm]
        · simp [processElement, h1, h2, h3]

/-- A children array with no link matches anywhere is returned unchanged. -/
theorem processChildren_noLinks (resolve : List Char → List Char)
    (es : ElementList) (h : noLinksList es = true) :
    (processChildren resolve es).2 = es := by
  cases es with
  | nil => rfl
  | cons e es2 =>
    have h1 : noLinks e = true ∧ noLinksList es2 = true := by
      simpa [noLinksList, Bool.and_eq_true] using h
    rcases hpe : processElement resolve e with ⟨o1, e2⟩
    rcases hps : processChildren resolve es2 with ⟨o2, es3⟩
    have he := processElement_noLinks resolve e h1.1
    have hes := processChildren_noLinks resolve es2 h1.2
    rw [hpe] at he
    rw [hps] at hes
    simp [processChildren, hpe, hps, he, hes]
end

/-- C9: normalization mutates its input: for every text element whose
content has at least one `linkPattern` match, `processElement` overwrites
`attrs.content` with the substituted text (which carries a `" [链接] "`
marker and strictly more spaces than the original, so the returned tree
differs from the input tree), and that substituted text is also what the
element contributes to the flattened output; elements with no matches are
returned unchanged, and nothing besides `attrs.content` fields is ever
changed. -/
theorem c9_normalize_mutates_in_place :
    (∀ (resolve : List Char → List Char) (content src : List Char)
        (ch : ElementList) (ls : List (List Char)),
      jsMatch content = some ls →
      processElement resolve (.mk ("text").data content src ch) =
        (substLinks resolve content ls,
          .mk ("text").data (substLinks resolve content ls) src ch) ∧
      countSpaces content < countSpaces (substLinks resolve content ls) ∧
      (∃ p q, substLinks resolve content ls = p ++ (" [链接] ").data ++ q) ∧
      (processElement resolve (.mk ("text").data content src ch)).2 ≠
        .mk ("text").data content src ch) ∧
    (∀ (resolve : List Char → List Char) (e : Element),
      noLinks e = true → (processElement resolve e).2 = e) ∧
    (∀ (resolve : List Char → List Char) (e : Element),
      eraseContents (processElement resolve e).2 = eraseContents e) := by
  refine ⟨?_, processElement_noLinks, processElement_skeleton⟩
  intro resolve content src ch ls hm
  have hdisp1 : includesStr ("text").data ("emoji").data = false := by decide
  have hdisp2 : ("text").data ≠ ("img").data := by decide
  obtain ⟨hlsne, hprop⟩ := jsMatch_spec content ls hm
  obtain ⟨l0, ls2, rfl⟩ : ∃ l0 ls2, ls = l0 :: ls2 := by
    cases ls with
    | nil => exact absurd rfl hlsne
    | cons a b => exact ⟨a, b, rfl⟩
  obtain ⟨h0ne, h0ns, hocc⟩ := hprop l0 (List.mem_cons_self _ _)
  have hls2 : ∀ l ∈ ls2, ∀ c ∈ l, isSpaceJs c = false := fun l hl =>
    (hprop l (List.mem_cons_of_mem _ hl)).2.1
  obtain ⟨hlt, hcont⟩ := substLinks_strict resolve content l0 ls2 h0ne h0ns
    hocc hls2
  have heq : processElement resolve (.mk ("text").data content src ch) =
      (substLinks resolve content (l0 :: ls2),
        .mk ("text").data (substLinks resolve content (l0 :: ls2)) src ch) := by
    simp +decide [processElement, hm]
  refine ⟨heq, hlt, hcont, ?_⟩
  rw [heq]
  intro hcontra
  have hcc : substLinks resolve content (l0 :: ls2) = content := by
    injection hcontra with hty hcc hsrc hch
  rw [hcc] at hlt
  exact absurd hlt (lt_irrefl _)

/-- C9 witness: the mutation theorem at the concrete text element
`"see www.ex.com ok"` with the resolver returning `"S"`: the returned
element's content is overwritten with `"see  [链接] S  ok"`. -/
theorem c9_normalize_mutates_witness :
    jsMatch ("see www.ex.com ok").data = some [("www.ex.com").data] ∧
    processElement (fun _ => ("S").data)
        (.mk ("text").data ("see www.ex.com ok").data [] .nil) =
      (("see  [链接] S  ok").data,
        .mk ("text").data ("see  [链接] S  ok").data [] .nil) := by
  refine ⟨by decide, ?_⟩
  have h := (c9_normalize_mutates_in_place.1 (fun _ => ("S").data)
    ("see www.ex.com ok").data [] .nil [("www.ex.com").data] (by decide)).1
  rw [h]
  rfl

end ConnectChatbridge
